import Mathlib

set_option maxRecDepth 10000

/-!
Verification of the AI4Water transformation wrapper
(`ai4water/preprocessing/transformations/_transformation_wrapper.py`) and the
search-space builder (`ai4water/_optimize.py`, `make_space`).

The Python code is shallowly embedded: tables are lists of rows of rationals,
Python dictionaries are association lists with insert-overwrite semantics,
Python exceptions are an `Except` monad over a structured error type, and the
external transform primitive (`Transformation`, excluded from the core and
treated as a black box) is a parameter record.
-/

/-- Structured model of the Python exceptions raised by the embedded code.
Message payloads keep the information interpolated at each raise site. -/
inductive PyErr where
  | valueError (msg : String)
  | assertionError (msg : String)
  | attributeError (nm : String)
  | keyError (key : String)
  | indexError
  | typeError
  deriving Repr, DecidableEq

/-- Python `dict` assignment `d[k] = v`: overwrite in place if the key exists
(keeping its position, as Python dicts do), otherwise append. -/
def pyDictInsert {α : Type} (d : List (String × α)) (k : String) (v : α) :
    List (String × α) :=
  if d.any (fun p => p.1 == k) then
    d.map (fun p => if p.1 == k then (k, v) else p)
  else
    d ++ [(k, v)]

/-- Python `d.update(new)`: insert every pair of `new` in order. -/
def pyDictUpdate {α : Type} (d new : List (String × α)) : List (String × α) :=
  new.foldl (fun acc p => pyDictInsert acc p.1 p.2) d

/-- Python `d[k]` read access: `KeyError` when absent. -/
def pyDictGet {α : Type} (d : List (String × α)) (k : String) :
    Except PyErr α :=
  match d.lookup k with
  | some v => Except.ok v
  | none => Except.error (PyErr.keyError k)

/-- Python `d.pop(k)` without default: remove the key, `KeyError` when absent. -/
def pyDictPop {α : Type} (d : List (String × α)) (k : String) :
    Except PyErr (List (String × α)) :=
  if d.any (fun p => p.1 == k) then
    Except.ok (d.filter (fun p => p.1 != k))
  else
    Except.error (PyErr.keyError k)

/-! ## Search-space builder (`make_space` in `ai4water/_optimize.py`) -/

/-- The `ai4water.hyperopt.Categorical` dimension: a candidate list plus the
dimension's name.  External to the core; only these two constructor arguments
are ever supplied by `make_space`. -/
structure Categorical where
  categories : List String
  name : String
  deriving Repr, DecidableEq

/-- A Python value appearing as a candidate set in `include`/`append`
dictionaries: a list of method names, an already-built `Categorical`, or
anything else (which `make_space` rejects with an assertion). -/
inductive SpaceVal where
  | lst (l : List String)
  | cat (c : Categorical)
  | other
  deriving Repr, DecidableEq

/-- An element of an `include` list: a feature name or a single-entry
`{feature: candidate_list}` dictionary. -/
inductive IncElem where
  | str (s : String)
  | dct (k : String) (v : List String)
  deriving Repr, DecidableEq

/-- The `include` argument of `make_space`: a single feature name, a list of
`IncElem`, or a single-entry `{feature: candidates}` mapping (the source
asserts `len(include) == 1`, which the single-pair constructor captures). -/
inductive IncludeArg where
  | str (s : String)
  | list (l : List IncElem)
  | dict (k : String) (v : SpaceVal)
  deriving Repr, DecidableEq

/-- The `exclude` argument: a single name or a list of names. -/
inductive ExcludeArg where
  | str (s : String)
  | list (l : List String)
  deriving Repr, DecidableEq

/-- Rendering of an include-list element inside the assertion message
`f"{feat} is not in input_features but is used in include"`. -/
def incElemRepr : IncElem → String
  | IncElem.str s => s
  | IncElem.dct k _ => "\x7b" ++ k ++ ": ...\x7d"

/-- Python `feat in input_features` for an include-list element: a string
compares by equality, a dict element never equals a string, so the test is
always false for dict elements. -/
def incElemMem (e : IncElem) (feats : List String) : Bool :=
  match e with
  | IncElem.str s => feats.contains s
  | IncElem.dct _ _ => false

/-- `if not isinstance(v, Categorical): assert isinstance(v, list); v =
Categorical(v, name=k)` — shared by the include and append loops. -/
def toCategorical (k : String) (v : SpaceVal) : Except PyErr Categorical :=
  match v with
  | SpaceVal.cat c => Except.ok c
  | SpaceVal.lst l => Except.ok (Categorical.mk l k)
  | SpaceVal.other =>
      Except.error (PyErr.assertionError ("space for " ++ k ++ " must be list"))

/-- The body of `for feat in include:` in `make_space`: the membership
assertion runs before the `isinstance(feat, str)` dispatch, so a dict element
always trips the assertion and the dict branch below it is unreachable. -/
def includeListStep (input_features : List String)
    (categories : List String) (acc : List (String × SpaceVal))
    (feat : IncElem) : Except PyErr (List (String × SpaceVal)) :=
  if incElemMem feat input_features then
    match feat with
    | IncElem.str s => Except.ok (pyDictInsert acc s (SpaceVal.lst categories))
    | IncElem.dct k v => Except.ok (pyDictInsert acc k (SpaceVal.lst v))
  else
    Except.error (PyErr.assertionError
      (incElemRepr feat ++ " is not in input_features but is used in include"))

/-- `make_space` from `ai4water/_optimize.py`: build the default space (one
categorical dimension per input feature), replace it wholesale when `include`
is given, pop `exclude` entries, then insert `append` entries, finally
returning the dictionary's values in insertion order. -/
def make_space (input_features : List String) (categories : List String)
    (include_ : Option IncludeArg) (exclude : Option ExcludeArg)
    (append : Option (List (String × SpaceVal))) :
    Except PyErr (List Categorical) := do
  let space : List (String × Categorical) :=
    input_features.foldl
      (fun acc nm => pyDictInsert acc nm (Categorical.mk categories nm)) []
  let space ←
    match include_ with
    | Option.none => pure space
    | Option.some inc => do
        let incDict : List (String × SpaceVal) ←
          match inc with
          | IncludeArg.str s => pure [(s, SpaceVal.lst categories)]
          | IncludeArg.list l =>
              l.foldlM (includeListStep input_features categories) []
          | IncludeArg.dict k v => pure [(k, v)]
        incDict.foldlM
          (fun acc kv => do
            let c ← toCategorical kv.1 kv.2
            pure (pyDictInsert acc kv.1 c))
          ([] : List (String × Categorical))
  let space ←
    match exclude with
    | Option.none => pure space
    | Option.some ex => do
        let exList : List String :=
          match ex with
          | ExcludeArg.str s => [s]
          | ExcludeArg.list l => l
        exList.foldlM (fun acc feat => pyDictPop acc feat) space
  let space ←
    match append with
    | Option.none => pure space
    | Option.some ap =>
        ap.foldlM
          (fun acc kv => do
            let c ← toCategorical kv.1 kv.2
            pure (pyDictInsert acc kv.1 c))
          space
  pure (space.map Prod.snd)

/-! ## Data model of the `Transformations` wrapper
(`ai4water/preprocessing/transformations/_transformation_wrapper.py`) -/

/-- A rank-2 numpy array `(rows, features)`: a list of rows of rationals
(exact arithmetic stands in for floating point). -/
abbrev Table := List (List ℚ)

/-- A pandas `DataFrame`: column names plus the underlying values. -/
structure DF where
  cols : List String
  rows : Table
  deriving DecidableEq

/-- `DataFrame.shape`: `(len(df), len(df.columns))`. -/
def DF.shape (df : DF) : List Nat := [df.rows.length, df.cols.length]

/-- A single numpy source: rank 2, or rank 3 stored as its list of
time-step slices `data[:, t]` (shape `(examples, time, features)`, so slice
`t` is the rank-2 table `(examples, features)`). -/
inductive Arr where
  | d2 (t : Table)
  | d3 (slices : List Table)
  deriving DecidableEq

/-- The top-level data container handed to `fit_transform`: a numpy array, a
list of arrays, a dict of arrays, or any other Python value (`other`), which
the non-`None`-config path rejects with `ValueError`. -/
inductive Container where
  | np (a : Arr)
  | list (l : List Arr)
  | dict (d : List (String × Arr))
  | other
  deriving DecidableEq

/-- `data.__class__.__name__` for the container. -/
def Container.tag : Container → String
  | Container.np _ => "ndarray"
  | Container.list _ => "list"
  | Container.dict _ => "dict"
  | Container.other => "object"

/-- The `feature_names` constructor argument: a flat list of names, a list of
per-source name lists, a dict of per-source name lists, or anything else. -/
inductive Names where
  | flat (l : List String)
  | nested (l : List (List String))
  | dictN (d : List (String × List String))
  | other
  deriving DecidableEq

/-- A transformation descriptor dict such as `{'method': 'log', 'features':
['a','b']}`.  `method = none` models Python `None`; `features = none` models
an absent `features` key.  Further options (`treat_negatives`, ...) are
forwarded opaquely to the external primitive and never read by the wrapper,
so they are not represented. -/
structure TransDescr where
  method : Option String
  features : Option (List String)
  deriving DecidableEq

/-- A Python transformation-config value: a method name, a descriptor dict, a
list, or a per-source-name dict. -/
inductive PyConfig where
  | str (m : String)
  | descr (d : TransDescr)
  | list (l : List PyConfig)
  | dict (d : List (String × PyConfig))

/-- Python truthiness of a config value (`if transformation:`): `None`, the
empty string, and empty collections are falsy.  A descriptor dict always has
its `method` key, so it is truthy. -/
def cfgTruthy : Option PyConfig → Bool
  | Option.none => false
  | Option.some (PyConfig.str m) => !(m == "")
  | Option.some (PyConfig.descr _) => true
  | Option.some (PyConfig.list l) => !l.isEmpty
  | Option.some (PyConfig.dict d) => !d.isEmpty

/-- Keyword arguments of one call to the external `Transformation` primitive:
either `method=m` alone or the full descriptor expansion `**descr`. -/
inductive TransArgs where
  | method (m : String)
  | descr (d : TransDescr)
  deriving DecidableEq

/-- Modelled from the spec: the fitted-transform descriptor returned by the
external `Transformation` primitive (whose class is not part of the core
sources) — "ScalerEntry: `{scaler: opaque-fitted-state, shape:
original-column-count, key: method-name}`".  `shape` is the shape tuple of
the table the scaler was fitted on. -/
structure ScalerDesc (σ : Type) where
  scaler : σ
  shape : List Nat
  key : String
  deriving DecidableEq

/-- Modelled from the spec: the external transform primitive (excluded from
the core, §6: it must "return `(transformed_table, scaler_descriptor)`, and
accept `(table, scaler_descriptor)` for the inverse direction", and be
deterministic given the descriptor — hence plain functions).  `trans` is
`Transformation(data=df, **args)('transformation', return_key=True)`;
`invTrans` is `Transformation(data=df, **args)(what='inverse',
scaler=s)`; `invScaler` is the raw `scaler.inverse_transform`, which
operates on the values of its argument and returns an ndarray; `rnd` is the
`np.random.random` stream used by `conform_shape` (row, draw index). -/
structure Prim (σ : Type) where
  trans : DF → TransArgs → DF × ScalerDesc σ
  invTrans : DF → TransArgs → σ → DF
  invScaler : σ → Table → Table
  rnd : Nat → Nat → ℚ

/-- The `Transformations` instance: constructor arguments `feature_names` and
`config`, the scaler registry, and the three container-kind attributes,
`none` while `setattr` has not yet run (reading them then raises
`AttributeError`). -/
structure Transformations (σ : Type) where
  names : Names
  config : Option PyConfig
  scalers : List (String × ScalerDesc σ)
  is_numpy_ : Option Bool
  is_list_ : Option Bool
  is_dict_ : Option Bool

/-- Python attribute read: `AttributeError` when the attribute was never set. -/
def getFlag (nm : String) : Option Bool → Except PyErr Bool
  | Option.some b => Except.ok b
  | Option.none => Except.error (PyErr.attributeError nm)

/-- An intermediate value that is either a raw ndarray or a DataFrame. -/
inductive PdVal where
  | arr (t : Table)
  | frame (df : DF)
  deriving DecidableEq

/-- The raw values of an intermediate (what numpy assignment or sklearn use). -/
def PdVal.val : PdVal → Table
  | PdVal.arr t => t
  | PdVal.frame df => df.rows

/-- View an intermediate as the DataFrame handed to the external primitive. -/
def PdVal.asDF : PdVal → DF
  | PdVal.frame df => df
  | PdVal.arr t => DF.mk [] t

/-- Column lookup by name in one row (used by pandas column selection);
missing columns read as a default value. -/
def lookupCol (cs : List String) (r : List ℚ) (c : String) : ℚ :=
  ((cs.zip r).lookup c).getD 0

/-- `df[cols]` / `pd.DataFrame(df, columns=cols)`: select columns by name. -/
def selectCols (df : DF) (cs : List String) : DF :=
  DF.mk cs (df.rows.map (fun r => cs.map (lookupCol df.cols r)))

/-- `pd.DataFrame(data, columns=columns)` on an ndarray or a DataFrame. -/
def pdDataFrame (v : PdVal) (cols : List String) : DF :=
  match v with
  | PdVal.arr t => DF.mk cols t
  | PdVal.frame df => selectCols df cols

/-- `data.values`: only DataFrames have it; an ndarray raises
`AttributeError` (reached when a truthy list spec applied no entry). -/
def pdValues : PdVal → Except PyErr Table
  | PdVal.arr _ => Except.error (PyErr.attributeError "values")
  | PdVal.frame df => Except.ok df.rows

/-- `shape[-1]` of an intermediate: column count of the DataFrame, or length
of the first row of the (rectangular) ndarray. -/
def pdWidth : PdVal → Nat
  | PdVal.frame df => df.cols.length
  | PdVal.arr t => (t.headD []).length

/-- Python slice `row[d:]` with possibly negative `d`. -/
def pySliceFrom (d : Int) (r : List ℚ) : List ℚ :=
  if d ≥ 0 then r.drop d.toNat else r.drop (r.length - (-d).toNat)

/-- Numpy `t[:, d:]`. -/
def colSliceFrom (t : Table) (d : Int) : Table :=
  t.map (pySliceFrom d)

/-- Split a flat list into rows of `c` entries, fuelled by the list length
so the recursion is structural. -/
def chunkRowsFuel (c : Nat) : Nat → List ℚ → List (List ℚ)
  | 0, _ => []
  | _ + 1, [] => []
  | fuel + 1, x :: xs =>
      if c = 0 then []
      else (x :: xs).take c :: chunkRowsFuel c fuel ((x :: xs).drop c)

/-- Split a flat list into rows of `c` entries (the row-major regrouping
behind `ndarray.reshape(n, c)`). -/
def chunkRows (c : Nat) (l : List ℚ) : List (List ℚ) :=
  chunkRowsFuel c l.length l

/-- `ndarray.reshape(original_shape)` for a 2-D target shape; any size
mismatch is the numpy `ValueError`. -/
def npReshape (t : Table) (shape : List Nat) : Except PyErr Table :=
  match shape with
  | [n, c] =>
      if t.flatten.length = n * c then Except.ok (chunkRows c t.flatten)
      else Except.error (PyErr.valueError "cannot reshape array")
  | _ => Except.error (PyErr.valueError "cannot reshape array")

/-- Prepend `d` freshly drawn random columns to every row (the
`np.random.random((len(data), d))` block concatenated in front). -/
def prependRnd (rnd : Nat → Nat → ℚ) (d : Nat) (t : Table) : Table :=
  t.enum.map (fun p => (List.range d).map (fun j => rnd p.1 j) ++ p.2)

/-- `for f in features: if f not in data: data[f] = np.random.random(len(data))`
— append each missing named column, drawing a fresh random column each time. -/
def addMissingFeatures (rnd : Nat → Nat → ℚ) (df : DF) (features : List String) :
    DF :=
  (features.foldl
    (fun (acc : DF × Nat) f =>
      if acc.1.cols.contains f then acc
      else
        (DF.mk (acc.1.cols ++ [f])
          (acc.1.rows.enum.map (fun p => p.2 ++ [rnd p.1 acc.2])), acc.2 + 1))
    (df, 0)).1

/-- `conform_shape(data, shape, features=None)` from the source: reconcile a
table's width with a previously recorded shape, prepending random dummy
columns (or adding missing named feature columns) and reporting how many
dummy columns the caller must strip again.  All shapes recorded by the
wrapper are 2-tuples (DataFrame shapes); the rank-adjustment branches for a
1- or 3-tuple would take the data outside rank 2 and are modeled as the
failure numpy raises when the squeeze/expand cannot apply. -/
def conform_shape (rnd : Nat → Nat → ℚ) (data : PdVal) (shape : List Nat)
    (features : Option (List String)) : Except PyErr (PdVal × Int) := do
  if shape.length ≠ 2 then
    Except.error (PyErr.valueError "cannot conform rank")
  else
    let dummy_features : Int := (shape.getLast?.getD 0 : Int) - pdWidth data
    match data with
    | PdVal.frame df =>
        if !(features.getD []).isEmpty then
          pure (PdVal.frame (addMissingFeatures rnd df (features.getD [])),
            dummy_features)
        else if dummy_features > 0 then
          pure (PdVal.frame
            (DF.mk ((List.range dummy_features.toNat).map Nat.repr ++ df.cols)
              (prependRnd rnd dummy_features.toNat df.rows)),
            dummy_features)
        else
          pure (PdVal.frame df, dummy_features)
    | PdVal.arr t =>
        if dummy_features < 0 then
          Except.error (PyErr.valueError "negative dimensions are not allowed")
        else
          pure (PdVal.arr (prependRnd rnd dummy_features.toNat t),
            dummy_features)

/-! ## `Transformations` methods -/

/-- `self.names` used directly as the column list of one source (the numpy
branch).  Only a flat name list yields DataFrame columns; other shapes make
the pandas constructor fail. -/
def namesAsCols : Names → Except PyErr (List String)
  | Names.flat l => Except.ok l
  | _ => Except.error PyErr.typeError

/-- `self.names[idx]` for list data: indexing a nested list returns that
source's names; indexing a flat list returns a single string (which pandas
rejects as a column collection); indexing a dict by an integer is a
`KeyError`. -/
def namesAt : Names → Nat → Except PyErr (List String)
  | Names.nested l, idx =>
      match l.get? idx with
      | Option.some cs => Except.ok cs
      | Option.none => Except.error PyErr.indexError
  | Names.flat l, idx =>
      match l.get? idx with
      | Option.some _ => Except.error PyErr.typeError
      | Option.none => Except.error PyErr.indexError
  | Names.dictN _, idx => Except.error (PyErr.keyError (Nat.repr idx))
  | Names.other, _ => Except.error PyErr.typeError

/-- `self.names[src_name]` for dict data. -/
def namesKey : Names → String → Except PyErr (List String)
  | Names.dictN d, k => pyDictGet d k
  | _, _ => Except.error PyErr.typeError

/-- `transformation[idx]` for list data: list indexing, or the error the
corresponding Python subscript raises (`"s"[i]` yields a one-character
string; `{...}[i]` is a `KeyError`; `None[i]` a `TypeError`). -/
def cfgIndex : Option PyConfig → Nat → Except PyErr (Option PyConfig)
  | Option.some (PyConfig.list l), idx =>
      match l.get? idx with
      | Option.some c => Except.ok (Option.some c)
      | Option.none => Except.error PyErr.indexError
  | Option.some (PyConfig.str m), idx =>
      match m.data.get? idx with
      | Option.some c => Except.ok (Option.some (PyConfig.str (String.mk [c])))
      | Option.none => Except.error PyErr.indexError
  | Option.some (PyConfig.descr _), idx => Except.error (PyErr.keyError (Nat.repr idx))
  | Option.some (PyConfig.dict _), idx => Except.error (PyErr.keyError (Nat.repr idx))
  | Option.none, _ => Except.error PyErr.typeError

/-- `transformation[src_name]` for dict data. -/
def cfgKey : Option PyConfig → String → Except PyErr (Option PyConfig)
  | Option.some (PyConfig.dict d), k =>
      match d.lookup k with
      | Option.some c => Except.ok (Option.some c)
      | Option.none => Except.error (PyErr.keyError k)
  | Option.some (PyConfig.descr _), k => Except.error (PyErr.keyError k)
  | _, _ => Except.error PyErr.typeError

/-- The message of the `ValueError` raised when a single-method inverse key is
absent: it interpolates the missing key and the list of available keys. -/
def missingKeyMsg (key : String) (available : List String) : String :=
  "key `" ++ key ++ "` for inverse transformation not found. " ++
    "Available keys are [" ++ String.intercalate ", " available ++ "]"

namespace Transformations

variable {σ : Type}

/-- `Transformations.transformation`: broadcast a single method name over the
sources of a list or dict container; any other config passes through. -/
def transformation (st : Transformations σ) (data : Container) :
    Option PyConfig :=
  match data, st.config with
  | Container.list l, Option.some (PyConfig.str m) =>
      Option.some (PyConfig.list (l.map (fun _ => PyConfig.str m)))
  | Container.dict d, Option.some (PyConfig.str m) =>
      Option.some (PyConfig.dict (d.map (fun p => (p.1, PyConfig.str m))))
  | _, c => c

/-- `Transformations._check_features`: the feature-name structure must match
the recorded container kind.  Iterating a flat list of strings (or a dict,
which yields its keys) fails the per-element `list` assertion unless it is
empty. -/
def _check_features (st : Transformations σ) : Except PyErr Unit := do
  let isNp ← getFlag "is_numpy_" st.is_numpy_
  if isNp then
    match st.names with
    | Names.flat _ => Except.ok ()
    | Names.nested _ => Except.ok ()
    | _ => Except.error (PyErr.assertionError "feature_names are of type")
  else do
    let isList ← getFlag "is_list_" st.is_list_
    if isList then
      match st.names with
      | Names.nested _ => Except.ok ()
      | Names.flat l =>
          if l.isEmpty then Except.ok ()
          else Except.error (PyErr.assertionError "feature_names don't match data")
      | Names.dictN d =>
          if d.isEmpty then Except.ok ()
          else Except.error (PyErr.assertionError "feature_names don't match data")
      | Names.other => Except.error PyErr.typeError
    else do
      let isDict ← getFlag "is_dict_" st.is_dict_
      if isDict then
        match st.names with
        | Names.dictN _ => Except.ok ()
        | _ => Except.error (PyErr.assertionError "feature_names are of type")
      else Except.ok ()

/-- `data` inside the `_transform_2d` loop: still the incoming ndarray, or
the DataFrame returned by the previous primitive call. -/
def wrapDF (acc : Sum Table DF) (cols : List String) : DF :=
  match acc with
  | Sum.inl t => DF.mk cols t
  | Sum.inr df => selectCols df cols

/-- `data.values` at the end of `_transform_2d`: an ndarray that was never
replaced by a DataFrame (every list entry skipped) has no `.values`. -/
def sumValues : Sum Table DF → Except PyErr Table
  | Sum.inl _ => Except.error (PyErr.attributeError "values")
  | Sum.inr df => Except.ok df.rows

/-- The `for idx, trans in enumerate(transformation)` loop of
`_transform_2d`: a string entry or a descriptor with a non-`None` method is
applied and registered under `f"{key}_{method}_{idx}"`; a descriptor whose
method is `None` is skipped; any other entry type fails the subscript. -/
def transform2dItems (p : Prim σ) (cols : List String) (key : String) :
    List (Nat × PyConfig) → Sum Table DF → List (String × ScalerDesc σ) →
    Except PyErr (Sum Table DF × List (String × ScalerDesc σ))
  | [], acc, scalers => Except.ok (acc, scalers)
  | (idx, tr) :: rest, acc, scalers =>
      match tr with
      | PyConfig.str m =>
          let res := p.trans (wrapDF acc cols) (TransArgs.method m)
          transform2dItems p cols key rest (Sum.inr res.1)
            (pyDictInsert scalers (key ++ "_" ++ m ++ "_" ++ Nat.repr idx) res.2)
      | PyConfig.descr d =>
          match d.method with
          | Option.none => transform2dItems p cols key rest acc scalers
          | Option.some m =>
              let res := p.trans (wrapDF acc cols) (TransArgs.descr d)
              transform2dItems p cols key rest (Sum.inr res.1)
                (pyDictInsert scalers (key ++ "_" ++ m ++ "_" ++ Nat.repr idx) res.2)
      | _ => Except.error PyErr.typeError

/-- `Transformations._transform_2d`: transform one 2-D source, collecting the
new scaler entries in a local dict that is merged into `self.scalers` after
`data.values` succeeds. -/
def _transform_2d (p : Prim σ) (st : Transformations σ) (data : Table)
    (columns : List String) (transformation : Option PyConfig) (key : String) :
    Except PyErr (Transformations σ × Table) := do
  if cfgTruthy transformation then
    match transformation with
    | Option.some (PyConfig.descr d) =>
        let res := p.trans (DF.mk columns data) (TransArgs.descr d)
        let scalers := pyDictInsert [] key res.2
        pure ({st with scalers := pyDictUpdate st.scalers scalers}, res.1.rows)
    | Option.some (PyConfig.list l) =>
        let res ← transform2dItems p columns key l.enum (Sum.inl data) []
        let vals ← sumValues res.1
        pure ({st with scalers := pyDictUpdate st.scalers res.2}, vals)
    | Option.some (PyConfig.str m) =>
        let res := p.trans (DF.mk columns data) (TransArgs.method m)
        let scalers := pyDictInsert [] key res.2
        pure ({st with scalers := pyDictUpdate st.scalers scalers}, res.1.rows)
    | Option.some (PyConfig.dict _) =>
        -- a general dict reaches the descriptor branch and fails inside the
        -- external primitive's keyword expansion
        Except.error PyErr.typeError
    | Option.none => pure (st, data)
  else
    pure (st, data)

/-- The per-time-step loop of `__fit_transform` for rank-3 data: each slice
is transformed with the time-step index appended to the key, and the results
are reassembled in order (the `np.full` scratch buffer). -/
def fit3dLoop (p : Prim σ) (st : Transformations σ) (cols : List String)
    (transformation : Option PyConfig) (key : String) :
    List Table → Nat → List Table →
    Except PyErr (Transformations σ × List Table)
  | [], _, acc => Except.ok (st, acc)
  | s :: rest, ts, acc => do
      let res ← _transform_2d p st s cols transformation
        (key ++ "_" ++ Nat.repr ts)
      fit3dLoop p res.1 cols transformation key rest (ts + 1) (acc ++ [res.2])

/-- `Transformations.__fit_transform` (name-mangled in Python): transform one
source, slicing rank-3 data per time step. -/
def fitTransformOne (p : Prim σ) (st : Transformations σ) (data : Arr)
    (feature_names : List String) (transformation : Option PyConfig)
    (key : String) : Except PyErr (Transformations σ × Arr) := do
  match data with
  | Arr.d3 slices => do
      let res ← fit3dLoop p st feature_names transformation key slices 0 []
      pure (res.1, Arr.d3 res.2)
  | Arr.d2 t => do
      let res ← _transform_2d p st t feature_names transformation key
      pure (res.1, Arr.d2 res.2)

/-- The `enumerate(data)` loop of `_fit_transform` for list data. -/
def fitListLoop (p : Prim σ) (st : Transformations σ)
    (transformation : Option PyConfig) (key : String) :
    List Arr → Nat → List Arr → Except PyErr (Transformations σ × List Arr)
  | [], _, acc => Except.ok (st, acc)
  | a :: rest, idx, acc => do
      let cols ← namesAt st.names idx
      let cfg ← cfgIndex transformation idx
      let res ← fitTransformOne p st a cols cfg (key ++ "_" ++ Nat.repr idx)
      fitListLoop p res.1 transformation key rest (idx + 1) (acc ++ [res.2])

/-- The `data.items()` loop of `_fit_transform` for dict data. -/
def fitDictLoop (p : Prim σ) (st : Transformations σ)
    (transformation : Option PyConfig) (key : String) :
    List (String × Arr) → List (String × Arr) →
    Except PyErr (Transformations σ × List (String × Arr))
  | [], acc => Except.ok (st, acc)
  | (src_name, a) :: rest, acc => do
      let cols ← namesKey st.names src_name
      let cfg ← cfgKey transformation src_name
      let res ← fitTransformOne p st a cols cfg (key ++ "_" ++ src_name)
      fitDictLoop p res.1 transformation key rest (acc ++ [(src_name, res.2)])

/-- `Transformations._fit_transform`: dispatch on the recorded container
kind and fan out per source. -/
def _fit_transform (p : Prim σ) (st : Transformations σ) (data : Container)
    (key : String) : Except PyErr (Transformations σ × Container) := do
  let transformation := Transformations.transformation st data
  let isNp ← getFlag "is_numpy_" st.is_numpy_
  if isNp then
    match data with
    | Container.np a => do
        let cols ← namesAsCols st.names
        let res ← fitTransformOne p st a cols transformation key
        pure (res.1, Container.np res.2)
    | _ => Except.error (PyErr.attributeError "ndim")
  else do
    let isList ← getFlag "is_list_" st.is_list_
    if isList then
      match data with
      | Container.list l => do
          let res ← fitListLoop p st transformation key l 0 []
          pure (res.1, Container.list res.2)
      | _ => Except.error PyErr.typeError
    else do
      let isDict ← getFlag "is_dict_" st.is_dict_
      if isDict then
        match data with
        | Container.dict d => do
            let res ← fitDictLoop p st transformation key d []
            pure (res.1, Container.dict res.2)
        | _ => Except.error PyErr.typeError
      else Except.error PyErr.typeError

/-- `Transformations.fit_transform`: a `None` config returns the data object
untouched; otherwise classify the container kind (rejecting anything that is
not array/list/dict), check the feature-name structure, transform, and assert
the output has the same class as the input. -/
def fit_transform (p : Prim σ) (st : Transformations σ) (data : Container) :
    Except PyErr (Transformations σ × Container) := do
  match st.config with
  | Option.none => pure (st, data)
  | Option.some _ => do
      let st := {st with is_numpy_ := Option.some false,
                         is_list_ := Option.some false,
                         is_dict_ := Option.some false}
      let st ←
        match data with
        | Container.np _ => pure {st with is_numpy_ := Option.some true}
        | Container.list _ => pure {st with is_list_ := Option.some true}
        | Container.dict _ => pure {st with is_dict_ := Option.some true}
        | Container.other => Except.error (PyErr.valueError "")
      _check_features st
      let res ← _fit_transform p st data "5"
      if res.2.tag == data.tag then pure res
      else Except.error (PyErr.assertionError "type changed")

end Transformations

/-! ## Inverse transformation -/

/-- One inverse-transformed source: the single-method path returns a reshaped
ndarray, while the list and descriptor paths return the DataFrame produced by
the external primitive. -/
inductive ArrOut where
  | d2a (t : Table)
  | d2f (df : DF)
  | d3 (slices : List Table)
  deriving DecidableEq

/-- The value `inverse_transform` returns: same container constructors as the
input, with possibly DataFrame-valued sources; `other` is the untouched
fall-through when no container-kind flag is set. -/
inductive ContainerOut where
  | np (a : ArrOut)
  | list (l : List ArrOut)
  | dict (d : List (String × ArrOut))
  | other
  deriving DecidableEq

/-- Reading a forward-shaped container as an inverse result (the `return
data` fall-through when no kind flag is true). -/
def Container.asOut : Container → ContainerOut
  | Container.np (Arr.d2 t) => ContainerOut.np (ArrOut.d2a t)
  | Container.np (Arr.d3 s) => ContainerOut.np (ArrOut.d3 s)
  | Container.list l =>
      ContainerOut.list (l.map (fun a =>
        match a with
        | Arr.d2 t => ArrOut.d2a t
        | Arr.d3 s => ArrOut.d3 s))
  | Container.dict d =>
      ContainerOut.dict (d.map (fun pr =>
        (pr.1, match pr.2 with
               | Arr.d2 t => ArrOut.d2a t
               | Arr.d3 s => ArrOut.d3 s)))
  | Container.other => ContainerOut.other

namespace Transformations

variable {σ : Type}

/-- The `for idx, trans in reversed(list(enumerate(transformation)))` loop of
`_inverse_transform_2d`: the argument list arrives already reversed.  A
string entry looks up `f"{key}_{method}_{idx}"` by plain dict access (a bare
`KeyError` when absent) and applies the primitive's inverse directly; a
descriptor entry with a non-`None` method is applied only when some of its
features occur among the data's columns, conforming the shape first and
re-selecting the original columns afterwards. -/
def inv2dItems (p : Prim σ) (st : Transformations σ) (columns : List String)
    (key : String) : List (Nat × PyConfig) → DF → Except PyErr DF
  | [], data => Except.ok data
  | (idx, tr) :: rest, data =>
      match tr with
      | PyConfig.str m => do
          let entry ← pyDictGet st.scalers
            (key ++ "_" ++ m ++ "_" ++ Nat.repr idx)
          let data := p.invTrans data (TransArgs.method m) entry.scaler
          inv2dItems p st columns key rest data
      | PyConfig.descr d =>
          match d.method with
          | Option.none => inv2dItems p st columns key rest data
          | Option.some m => do
              let feats := d.features.getD columns
              if feats.any (fun f => data.cols.contains f) then do
                let orig_cols := data.cols
                let entry ← pyDictGet st.scalers
                  (key ++ "_" ++ m ++ "_" ++ Nat.repr idx)
                let res ← conform_shape p.rnd (PdVal.frame data) entry.shape
                  (Option.some feats)
                let transformed := p.invTrans res.1.asDF (TransArgs.descr d)
                  entry.scaler
                inv2dItems p st columns key rest (selectCols transformed orig_cols)
              else
                inv2dItems p st columns key rest data
      | _ => Except.error PyErr.typeError

/-- `Transformations._inverse_transform_2d`: wrap the values in a DataFrame,
then dispatch on the spec form.  The single-method path checks the registry
key itself, raising a `ValueError` that names the missing key and the
available keys; it then pads to the recorded shape, applies the raw scaler
inverse, strips the dummy columns and reshapes back.  A `None` spec returns
the wrapped DataFrame untouched. -/
def _inverse_transform_2d (p : Prim σ) (st : Transformations σ) (data : Table)
    (columns : List String) (key : String) (transformation : Option PyConfig) :
    Except PyErr (Transformations σ × PdVal) := do
  let data : DF := DF.mk columns data
  match transformation with
  | Option.none => pure (st, PdVal.frame data)
  | Option.some tr =>
      match tr with
      | PyConfig.str _ => do
          match st.scalers.lookup key with
          | Option.none =>
              Except.error (PyErr.valueError
                (missingKeyMsg key (st.scalers.map Prod.fst)))
          | Option.some entry => do
              let original_shape := data.shape
              let res ← conform_shape p.rnd (PdVal.frame data) entry.shape
                Option.none
              let transformed_data := p.invScaler entry.scaler res.1.val
              let sliced := colSliceFrom transformed_data res.2
              let reshaped ← npReshape sliced original_shape
              pure (st, PdVal.arr reshaped)
      | PyConfig.list l => do
          let df ← inv2dItems p st columns key l.enum.reverse data
          pure (st, PdVal.frame df)
      | PyConfig.descr d =>
          match d.features with
          | Option.none => Except.error (PyErr.keyError "features")
          | Option.some feats =>
              if feats.any (fun f => data.cols.contains f) then do
                let orig_cols := data.cols
                let entry ← pyDictGet st.scalers key
                let res ← conform_shape p.rnd (PdVal.frame data) entry.shape
                  (Option.some feats)
                let transformed := p.invTrans res.1.asDF (TransArgs.descr d)
                  entry.scaler
                pure (st, PdVal.frame (selectCols transformed orig_cols))
              else
                pure (st, PdVal.frame data)
      | PyConfig.dict _ =>
          -- a general dict takes the descriptor branch and fails looking up
          -- its `features` key
          Except.error (PyErr.keyError "features")

/-- The per-time-step loop of `__inverse_transform` for rank-3 data: each
slice result is assigned into the scratch ndarray through its values. -/
def inv3dLoop (p : Prim σ) (st : Transformations σ) (cols : List String)
    (transformation : Option PyConfig) (key : String) :
    List Table → Nat → List Table →
    Except PyErr (Transformations σ × List Table)
  | [], _, acc => Except.ok (st, acc)
  | s :: rest, ts, acc => do
      let res ← _inverse_transform_2d p st s cols
        (key ++ "_" ++ Nat.repr ts) transformation
      inv3dLoop p res.1 cols transformation key rest (ts + 1)
        (acc ++ [res.2.val])

/-- `Transformations.__inverse_transform` (name-mangled in Python): invert
one source, slicing rank-3 data per time step. -/
def invTransformOne (p : Prim σ) (st : Transformations σ) (data : Arr)
    (feature_names : List String) (transformation : Option PyConfig)
    (key : String) : Except PyErr (Transformations σ × ArrOut) := do
  match data with
  | Arr.d3 slices => do
      let res ← inv3dLoop p st feature_names transformation key slices 0 []
      pure (res.1, ArrOut.d3 res.2)
  | Arr.d2 t => do
      let res ← _inverse_transform_2d p st t feature_names key transformation
      pure (res.1,
        match res.2 with
        | PdVal.arr tt => ArrOut.d2a tt
        | PdVal.frame df => ArrOut.d2f df)

/-- The `enumerate(data)` loop of `_inverse_transform` for list data. -/
def invListLoop (p : Prim σ) (st : Transformations σ)
    (transformation : Option PyConfig) (key : String) :
    List Arr → Nat → List ArrOut →
    Except PyErr (Transformations σ × List ArrOut)
  | [], _, acc => Except.ok (st, acc)
  | a :: rest, idx, acc => do
      let cols ← namesAt st.names idx
      let cfg ← cfgIndex transformation idx
      let res ← invTransformOne p st a cols cfg (key ++ "_" ++ Nat.repr idx)
      invListLoop p res.1 transformation key rest (idx + 1) (acc ++ [res.2])

/-- The `data.items()` loop of `_inverse_transform` for dict data. -/
def invDictLoop (p : Prim σ) (st : Transformations σ)
    (transformation : Option PyConfig) (key : String) :
    List (String × Arr) → List (String × ArrOut) →
    Except PyErr (Transformations σ × List (String × ArrOut))
  | [], acc => Except.ok (st, acc)
  | (src_name, a) :: rest, acc => do
      let cols ← namesKey st.names src_name
      let cfg ← cfgKey transformation src_name
      let res ← invTransformOne p st a cols cfg (key ++ "_" ++ src_name)
      invDictLoop p res.1 transformation key rest (acc ++ [(src_name, res.2)])

/-- `Transformations._inverse_transform`: dispatch on the kind flags recorded
by the forward call (reading them before any forward call raises
`AttributeError`); list and dict branches assert the data's type; with no
flag set the data is returned untouched. -/
def _inverse_transform (p : Prim σ) (st : Transformations σ)
    (data : Container) (key : String) :
    Except PyErr (Transformations σ × ContainerOut) := do
  let transformation := Transformations.transformation st data
  let isNp ← getFlag "is_numpy_" st.is_numpy_
  if isNp then
    match data with
    | Container.np a => do
        let cols ← namesAsCols st.names
        let res ← invTransformOne p st a cols transformation key
        pure (res.1, ContainerOut.np res.2)
    | _ => Except.error (PyErr.attributeError "ndim")
  else do
    let isList ← getFlag "is_list_" st.is_list_
    if isList then
      match data with
      | Container.list l => do
          let res ← invListLoop p st transformation key l 0 []
          pure (res.1, ContainerOut.list res.2)
      | _ => Except.error (PyErr.assertionError "isinstance(data, list)")
    else do
      let isDict ← getFlag "is_dict_" st.is_dict_
      if isDict then
        match data with
        | Container.dict d => do
            let res ← invDictLoop p st transformation key d []
            pure (res.1, ContainerOut.dict res.2)
        | _ => Except.error (PyErr.assertionError "isinstance(data, dict)")
      else pure (st, data.asOut)

/-- `Transformations.inverse_transform`: the public entry point, delegating
to `_inverse_transform` with the default base key. -/
def inverse_transform (p : Prim σ) (st : Transformations σ)
    (data : Container) : Except PyErr (Transformations σ × ContainerOut) :=
  _inverse_transform p st data "5"

end Transformations

/-! ## The raw data carried by an inverse result -/

/-- Strip the pandas wrapper from one inverse-transformed source, keeping the
numeric values. -/
def ArrOut.val : ArrOut → Arr
  | ArrOut.d2a t => Arr.d2 t
  | ArrOut.d2f df => Arr.d2 df.rows
  | ArrOut.d3 s => Arr.d3 s

/-- Strip pandas wrappers from an inverse result, keeping the numeric
values of every source. -/
def ContainerOut.val : ContainerOut → Container
  | ContainerOut.np a => Container.np a.val
  | ContainerOut.list l => Container.list (l.map ArrOut.val)
  | ContainerOut.dict d => Container.dict (d.map (fun pr => (pr.1, pr.2.val)))
  | ContainerOut.other => Container.other

/-- Whether an inverse result is a plain numpy container (every source an
ndarray, none of them a DataFrame). -/
def ContainerOut.isNumpyLike : ContainerOut → Bool
  | ContainerOut.np (ArrOut.d2a _) => true
  | ContainerOut.np (ArrOut.d3 _) => true
  | _ => false

/-! ## Concrete fixtures used by witnesses and counterexamples -/

/-- A concrete invertible primitive: add one to every entry; the inverse
subtracts one.  The descriptor records the fitted shape as the spec
prescribes. -/
def shiftPrim : Prim Unit where
  trans df a :=
    (DF.mk df.cols (df.rows.map (fun r => r.map (fun q => q + 1))),
      ScalerDesc.mk () df.shape
        (match a with
         | TransArgs.method m => m
         | TransArgs.descr d => d.method.getD ""))
  invTrans df _ _ := DF.mk df.cols (df.rows.map (fun r => r.map (fun q => q - 1)))
  invScaler _ t := t.map (fun r => r.map (fun q => q - 1))
  rnd _ _ := 1/2

/-- A primitive whose scaler descriptor records the fitted table, and whose
scaler inverse replays exactly that table — an idealisation of a fitted
statistical scaler: inverting with the wrong fitted state returns the wrong
data. -/
def recallPrim : Prim Table where
  trans df a :=
    (DF.mk df.cols (df.rows.map (fun r => r.map (fun q => q + 1))),
      ScalerDesc.mk df.rows df.shape
        (match a with
         | TransArgs.method m => m
         | TransArgs.descr d => d.method.getD ""))
  invTrans _ _ s := DF.mk [] s
  invScaler s _ := s
  rnd _ _ := 1/2

/-- A fresh `Transformations(['a','b'], config='minmax')` instance. -/
def stMinmax : Transformations Unit :=
  ⟨Names.flat ["a", "b"], Option.some (PyConfig.str "minmax"), [],
    Option.none, Option.none, Option.none⟩

/-- A fresh instance with `config=None`. -/
def stNone : Transformations Unit :=
  ⟨Names.flat [], Option.none, [], Option.none, Option.none, Option.none⟩

/-- The identity primitive: transforms nothing, inverts nothing, and records
the fitted shape as the spec prescribes.  Used by witnesses, where only the
wrapper's bookkeeping matters. -/
def idPrim : Prim Unit where
  trans df a :=
    (df, ScalerDesc.mk () df.shape
      (match a with
       | TransArgs.method m => m
       | TransArgs.descr d => d.method.getD ""))
  invTrans df _ _ := df
  invScaler _ t := t
  rnd _ _ := 0

/-- A fitted instance used by the C9 witness: one scaler registered under the
base key. -/
def stFitted : Transformations Unit :=
  ⟨Names.flat ["a"], Option.some (PyConfig.str "minmax"),
    [("5", ScalerDesc.mk () [1, 1] "minmax")],
    Option.some true, Option.some false, Option.some false⟩

/-- The instance behind the C5 counterexample: a dict-container config whose
source `b` has the list spec `['minmax']`, never fitted. -/
def stC5 : Transformations Unit :=
  ⟨Names.dictN [("b", ["f"])],
    Option.some (PyConfig.dict [("b", PyConfig.list [PyConfig.str "minmax"])]),
    [], Option.some false, Option.some false, Option.some true⟩

/-- Registry contents for the C2 witness. -/
def stC2 : Transformations Unit :=
  ⟨Names.flat ["a"],
    Option.some (PyConfig.list [PyConfig.str "mm", PyConfig.str "zs"]),
    [("5_mm_0", ScalerDesc.mk () [1, 1] "mm"),
     ("5_zs_1", ScalerDesc.mk () [1, 1] "zs")],
    Option.some true, Option.some false, Option.some false⟩

/-! Decimal representation facts -/

def decChars (n : Nat) : List Char :=
  if h : n < 10 then [Nat.digitChar n]
  else decChars (n / 10) ++ [Nat.digitChar (n % 10)]
termination_by n
decreasing_by
  exact Nat.div_lt_self (by omega) (by norm_num)

/-! Underscore-joined key strings -/

/-- A string free of the underscore separator. -/
def undFree (s : String) : Prop := '_' ∉ s.data

/-- The composite key built from parts joined by underscores. -/
def sJoin : List String → String
  | [] => ""
  | [s] => s
  | s :: rest => s ++ "_" ++ sJoin rest

/-! The registry entries a successful forward transform writes -/

/-- The broadcast step of `Transformations.transformation`, as a function of
the config alone. -/
def broadcastCfg (cfg : Option PyConfig) (data : Container) : Option PyConfig :=
  match data, cfg with
  | Container.list l, Option.some (PyConfig.str m) =>
      Option.some (PyConfig.list (l.map (fun _ => PyConfig.str m)))
  | Container.dict d, Option.some (PyConfig.str m) =>
      Option.some (PyConfig.dict (d.map (fun p => (p.1, PyConfig.str m))))
  | _, c => c

/-- The local scaler dict one `_transform_2d` list-spec loop builds. -/
def itemsWrites {σ : Type} (p : Prim σ) (cols : List String) (key : String) :
    List (Nat × PyConfig) → Sum Table DF → List (String × ScalerDesc σ) →
    List (String × ScalerDesc σ)
  | [], _, scalers => scalers
  | (idx, tr) :: rest, acc, scalers =>
      match tr with
      | PyConfig.str m =>
          let res := p.trans (Transformations.wrapDF acc cols) (TransArgs.method m)
          itemsWrites p cols key rest (Sum.inr res.1)
            (pyDictInsert scalers (key ++ "_" ++ m ++ "_" ++ Nat.repr idx) res.2)
      | PyConfig.descr d =>
          match d.method with
          | Option.none => itemsWrites p cols key rest acc scalers
          | Option.some m =>
              let res := p.trans (Transformations.wrapDF acc cols) (TransArgs.descr d)
              itemsWrites p cols key rest (Sum.inr res.1)
                (pyDictInsert scalers (key ++ "_" ++ m ++ "_" ++ Nat.repr idx) res.2)
      | _ => scalers

/-- The local scaler dict one `_transform_2d` call merges into the registry. -/
def writes2d {σ : Type} (p : Prim σ) (t : Table) (cols : List String)
    (tr : Option PyConfig) (key : String) : List (String × ScalerDesc σ) :=
  if cfgTruthy tr then
    match tr with
    | Option.some (PyConfig.descr d) =>
        pyDictInsert [] key (p.trans (DF.mk cols t) (TransArgs.descr d)).2
    | Option.some (PyConfig.list l) => itemsWrites p cols key l.enum (Sum.inl t) []
    | Option.some (PyConfig.str m) =>
        pyDictInsert [] key (p.trans (DF.mk cols t) (TransArgs.method m)).2
    | _ => []
  else []

/-- The registry entries written for one source (slice-by-slice for rank 3). -/
def arrWrites {σ : Type} (p : Prim σ) (a : Arr) (cols : List String)
    (tr : Option PyConfig) (key : String) : List (String × ScalerDesc σ) :=
  match a with
  | Arr.d2 t => writes2d p t cols tr key
  | Arr.d3 slices =>
      (slices.enum.map
        (fun pr => writes2d p pr.2 cols tr (key ++ "_" ++ Nat.repr pr.1))).flatten

/-- All registry entries a successful `fit_transform` call writes, in write
order (resolution failures contribute nothing: the call would have raised
before writing). -/
def fitWrites {σ : Type} (p : Prim σ) (names : Names) (cfg : Option PyConfig)
    (data : Container) : List (String × ScalerDesc σ) :=
  let tr := broadcastCfg cfg data
  match data with
  | Container.np a => arrWrites p a ((namesAsCols names).toOption.getD []) tr "5"
  | Container.list l =>
      (l.enum.map (fun pr => arrWrites p pr.2
        ((namesAt names pr.1).toOption.getD [])
        ((cfgIndex tr pr.1).toOption.getD Option.none)
        ("5" ++ "_" ++ Nat.repr pr.1))).flatten
  | Container.dict d =>
      (d.map (fun pr => arrWrites p pr.2
        ((namesKey names pr.1).toOption.getD [])
        ((cfgKey tr pr.1).toOption.getD Option.none)
        ("5" ++ "_" ++ pr.1))).flatten
  | Container.other => []

/-! Key shape and uniqueness (C3) -/

/-- The method name a list-spec entry contributes to its composite key. -/
def entryMethod : PyConfig → Option String
  | PyConfig.str m => Option.some m
  | PyConfig.descr d => d.method
  | _ => Option.none

/-- Hygiene of one resolved per-source spec: every method name that a list
entry splices into a composite registry key is underscore-free. -/
def cfgListUndFree : Option PyConfig → Prop
  | Option.some (PyConfig.list l) =>
      ∀ e ∈ l, ∀ m, entryMethod e = Option.some m → undFree m
  | _ => True

/-- Hygiene of a whole fit call: dict source names are underscore-free and
pairwise distinct, and every per-source spec satisfies `cfgListUndFree`. -/
def fitHyg (cfg : Option PyConfig) (data : Container) : Prop :=
  match data with
  | Container.np _ => cfgListUndFree (broadcastCfg cfg data)
  | Container.list l => ∀ i, i < l.length →
      cfgListUndFree ((cfgIndex (broadcastCfg cfg data) i).toOption.getD Option.none)
  | Container.dict d => (d.map Prod.fst).Nodup ∧
      (∀ n ∈ d.map Prod.fst, undFree n) ∧
      ∀ n ∈ d.map Prod.fst,
        cfgListUndFree ((cfgKey (broadcastCfg cfg data) n).toOption.getD Option.none)
  | Container.other => True

/-! ## Claim C3: uniqueness of composite registry keys -/

/-- Names for the colliding pair: a 3-D source named `x` and a 2-D source
named `x_0`, with identical feature names. -/
def namesC3 : Names := Names.dictN [("x", ["a"]), ("x_0", ["a"])]

/-- The colliding data: source `x` is rank 3 (its time-step 0 block is keyed
`5_x_0`), source `x_0` is rank 2 (keyed `5_x_0` directly). -/
def dataC3 : Container :=
  Container.dict [("x", Arr.d3 [[[1]]]), ("x_0", Arr.d2 [[5]])]

/-- A fresh instance over the two colliding sources, single-method config. -/
def stC3 : Transformations Table :=
  ⟨namesC3, Option.some (PyConfig.str "minmax"), [],
    Option.none, Option.none, Option.none⟩

/-! ## Claim C4: container variant preservation -/

/-- Whether an inverse-transformed source is still a numpy value (the
single-method path returns an ndarray; the list and descriptor paths return a
pandas DataFrame). -/
def ArrOut.isNp : ArrOut → Bool
  | ArrOut.d2f _ => false
  | _ => true

/-- The Python type of the object `inverse_transform` returns: for a numpy
input the payload itself is returned, so a DataFrame payload changes the
returned type. -/
def ContainerOut.pyType : ContainerOut → String
  | ContainerOut.np (ArrOut.d2f _) => "DataFrame"
  | ContainerOut.np _ => "ndarray"
  | ContainerOut.list _ => "list"
  | ContainerOut.dict _ => "dict"
  | ContainerOut.other => "object"

/-- A fresh instance with a list spec over one feature, for the C4
counterexample. -/
def stC4 : Transformations Unit :=
  ⟨Names.flat ["a"], Option.some (PyConfig.list [PyConfig.str "minmax"]), [],
    Option.none, Option.none, Option.none⟩

/-- The numpy input of the C4 counterexample. -/
def dataC4 : Container := Container.np (Arr.d2 [[1]])

/-- An instance whose kind flags are all `False`, exercising the inverse
fall-through that returns its input untouched. -/
def stC4flags : Transformations Unit :=
  ⟨Names.flat [], Option.none, [], Option.some false, Option.some false,
    Option.some false⟩

/-! ## Claim C1: single-method round trip -/

/-- The transformed rows of one 2-D block under a single-method spec. -/
def tr2 {σ : Type} (p : Prim σ) (cols : List String) (m : String)
    (t : Table) : Table :=
  (p.trans (DF.mk cols t) (TransArgs.method m)).1.rows

/-- The scaler descriptor recorded for one 2-D block under a single-method
spec. -/
def trD {σ : Type} (p : Prim σ) (cols : List String) (m : String)
    (t : Table) : ScalerDesc σ :=
  (p.trans (DF.mk cols t) (TransArgs.method m)).2

/-- One source transformed under a single-method spec. -/
def trArr {σ : Type} (p : Prim σ) (cols : List String) (m : String) :
    Arr → Arr
  | Arr.d2 t => Arr.d2 (tr2 p cols m t)
  | Arr.d3 s => Arr.d3 (s.map (tr2 p cols m))

/-- A whole container transformed under a single-method spec, resolving each
source's columns from the feature names the way the wrapper does. -/
def trContainer {σ : Type} (p : Prim σ) (m : String) (names : Names) :
    Container → Container
  | Container.np a =>
      Container.np (trArr p ((namesAsCols names).toOption.getD []) m a)
  | Container.list l =>
      Container.list (l.enum.map (fun pr =>
        trArr p ((namesAt names pr.1).toOption.getD []) m pr.2))
  | Container.dict d =>
      Container.dict (d.map (fun pr =>
        (pr.1, trArr p ((namesKey names pr.1).toOption.getD []) m pr.2)))
  | Container.other => Container.other

/-- The laws the spec imposes on the external transform primitive for
invertible (non-lossy) methods: the descriptor records the fitted shape, the
transformed table keeps the row count, and the raw scaler inverse undoes the
forward transform on the fitted data. -/
structure PrimLawful {σ : Type} (p : Prim σ) : Prop where
  shape_rec : ∀ df a, (p.trans df a).2.shape = df.shape
  len_pres : ∀ df a, (p.trans df a).1.rows.length = df.rows.length
  inv_scaler : ∀ df m, p.invScaler (p.trans df (TransArgs.method m)).2.scaler
    (p.trans df (TransArgs.method m)).1.rows = df.rows

/-- Every row of the table has exactly `c` entries. -/
def rectTable (c : Nat) (t : Table) : Prop := ∀ r ∈ t, r.length = c

/-- Every slice of the source is rectangular of width `c`. -/
def rectArr (c : Nat) : Arr → Prop
  | Arr.d2 t => rectTable c t
  | Arr.d3 s => ∀ t ∈ s, rectTable c t

/-- Well-formed input for the round trip: the feature names fit the container
kind, every source has a nonempty column list, and its data is rectangular of
that width. -/
def c1Wf (names : Names) : Container → Prop
  | Container.np a =>
      match names with
      | Names.flat cols => cols ≠ [] ∧ rectArr cols.length a
      | _ => False
  | Container.list l =>
      match names with
      | Names.nested nl => l.length = nl.length ∧
          ∀ pr ∈ l.zip nl, pr.2 ≠ [] ∧ rectArr pr.2.length pr.1
      | _ => False
  | Container.dict d =>
      match names with
      | Names.dictN nd =>
          ∀ pr ∈ d, ∃ cols, nd.lookup pr.1 = Option.some cols ∧
            cols ≠ [] ∧ rectArr cols.length pr.2
      | _ => False
  | Container.other => False

/-- Container-kind tests mirroring the three `setattr` flags. -/
def kindNp : Container → Bool
  | Container.np _ => true
  | _ => false

def kindList : Container → Bool
  | Container.list _ => true
  | _ => false

def kindDict : Container → Bool
  | Container.dict _ => true
  | _ => false

/-! ## Theorems -/

/-! ## Claim C10 -/

/-- Claim C10: with a `None` config, `fit_transform` returns its input
unchanged — the same instance state (no kind flags set, no registry writes)
and the very same data value — for every input, including values of
unrecognized container kind that the non-`None` path would reject. -/
theorem c10_config_none_passthrough {σ : Type} (p : Prim σ)
    (st : Transformations σ) (data : Container)
    (h : st.config = Option.none) :
    Transformations.fit_transform p st data = Except.ok (st, data) := by
  simp [Transformations.fit_transform, h, pure, Except.pure]

/-- Witness for C10 at a concrete unrecognized input. -/
theorem c10_config_none_passthrough_witness :
    Transformations.fit_transform shiftPrim stNone Container.other =
      Except.ok (stNone, Container.other) :=
  c10_config_none_passthrough shiftPrim stNone Container.other rfl

/-! ## Success analysis for the `Except` embedding -/

theorem exceptBind_ok {ε α β : Type} {x : Except ε α} {f : α → Except ε β}
    {b : β} :
    (x >>= f) = Except.ok b ↔ ∃ a, x = Except.ok a ∧ f a = Except.ok b := by
  cases x <;> simp [Bind.bind, Except.bind]

theorem exceptPure_ok {ε α : Type} {a b : α} :
    (pure a : Except ε α) = Except.ok b ↔ a = b := by
  simp [pure, Except.pure]

namespace Transformations

variable {σ : Type}

theorem _inverse_transform_2d_state {p : Prim σ} {st : Transformations σ}
    {t : Table} {cols : List String} {key : String} {tr : Option PyConfig}
    {res : Transformations σ × PdVal}
    (h : _inverse_transform_2d p st t cols key tr = Except.ok res) :
    res.1 = st := by
  unfold _inverse_transform_2d at h
  cases tr with
  | none =>
      simp only [exceptPure_ok] at h
      simp [← h]
  | some tr =>
      cases tr with
      | str m =>
          cases hl : (st.scalers.lookup key) with
          | none => simp only [hl] at h; exact Except.noConfusion h
          | some e =>
              simp only [hl] at h
              cases hc : conform_shape p.rnd (PdVal.frame (DF.mk cols t)) e.shape Option.none with
              | error er => rw [hc] at h; simp [Bind.bind, Except.bind, Functor.map, Except.map] at h
              | ok v =>
                  rw [hc] at h
                  simp only [Bind.bind, Except.bind, Functor.map, Except.map] at h
                  cases hr : npReshape (colSliceFrom (p.invScaler e.scaler v.1.val) v.2) (DF.mk cols t).shape with
                  | error er => rw [hr] at h; simp [Bind.bind, Except.bind, Functor.map, Except.map] at h
                  | ok w =>
                      rw [hr] at h
                      simp only [exceptPure_ok] at h
                      simp [← h]
      | list l =>
          try simp only [Bind.bind, Except.bind, Functor.map, Except.map] at h
          cases hi : inv2dItems p st cols key l.enum.reverse (DF.mk cols t) with
          | error er => rw [hi] at h; simp [Bind.bind, Except.bind, Functor.map, Except.map] at h
          | ok df =>
              rw [hi] at h
              simp only [Bind.bind, Except.bind, Functor.map, Except.map, exceptPure_ok] at h
              simp [← h]
      | descr d =>
          cases hf : d.features with
          | none => simp only [hf] at h; exact Except.noConfusion h
          | some feats =>
              simp only [hf] at h
              by_cases hc : (feats.any (fun f => (DF.mk cols t).cols.contains f)) = true
              · rw [if_pos hc] at h
                cases hg : pyDictGet st.scalers key with
                | error er => rw [hg] at h; simp [Bind.bind, Except.bind, Functor.map, Except.map] at h
                | ok e =>
                    rw [hg] at h
                    simp only [Bind.bind, Except.bind, Functor.map, Except.map] at h
                    cases hcf : conform_shape p.rnd (PdVal.frame (DF.mk cols t)) e.shape (Option.some feats) with
                    | error er => rw [hcf] at h; simp [Bind.bind, Except.bind, Functor.map, Except.map] at h
                    | ok v =>
                        rw [hcf] at h
                        simp only [exceptPure_ok] at h
                        simp [← h]
              · rw [if_neg hc] at h
                simp only [exceptPure_ok] at h
                simp [← h]
      | dict d => exact Except.noConfusion h

theorem inv3dLoop_state {p : Prim σ} {cols : List String}
    {tr : Option PyConfig} {key : String} :
    ∀ {slices : List Table} {st : Transformations σ} {ts : Nat}
      {acc : List Table} {res : Transformations σ × List Table},
      inv3dLoop p st cols tr key slices ts acc = Except.ok res → res.1 = st
  | [], st, ts, acc, res, h => by
      simp only [inv3dLoop, Except.ok.injEq] at h
      simp [← h]
  | s :: rest, st, ts, acc, res, h => by
      unfold inv3dLoop at h
      cases hx : _inverse_transform_2d p st s cols (key ++ "_" ++ Nat.repr ts) tr with
      | error e => rw [hx] at h; simp [Bind.bind, Except.bind, Functor.map, Except.map] at h
      | ok v =>
          rw [hx] at h
          simp only [Bind.bind, Except.bind, Functor.map, Except.map] at h
          have h1 : v.1 = st := _inverse_transform_2d_state hx
          have h2 := inv3dLoop_state h
          rw [h2, h1]

theorem invTransformOne_state {p : Prim σ} {st : Transformations σ}
    {data : Arr} {cols : List String} {tr : Option PyConfig} {key : String}
    {res : Transformations σ × ArrOut}
    (h : invTransformOne p st data cols tr key = Except.ok res) :
    res.1 = st := by
  cases data with
  | d3 slices =>
      simp only [invTransformOne] at h
      cases hx : inv3dLoop p st cols tr key slices 0 [] with
      | error e => rw [hx] at h; simp [Bind.bind, Except.bind, Functor.map, Except.map] at h
      | ok v =>
          rw [hx] at h
          simp only [Bind.bind, Except.bind, Functor.map, Except.map, exceptPure_ok] at h
          have h1 : v.1 = st := inv3dLoop_state hx
          rw [← h]
          exact h1
  | d2 t =>
      simp only [invTransformOne] at h
      cases hx : _inverse_transform_2d p st t cols key tr with
      | error e => rw [hx] at h; simp [Bind.bind, Except.bind, Functor.map, Except.map] at h
      | ok v =>
          rw [hx] at h
          simp only [Bind.bind, Except.bind, Functor.map, Except.map, exceptPure_ok] at h
          have h1 : v.1 = st := _inverse_transform_2d_state hx
          rw [← h]
          exact h1

theorem invListLoop_state {p : Prim σ} {tr : Option PyConfig} {key : String} :
    ∀ {l : List Arr} {st : Transformations σ} {idx : Nat}
      {acc : List ArrOut} {res : Transformations σ × List ArrOut},
      invListLoop p st tr key l idx acc = Except.ok res → res.1 = st
  | [], st, idx, acc, res, h => by
      simp only [invListLoop, Except.ok.injEq] at h
      simp [← h]
  | a :: rest, st, idx, acc, res, h => by
      unfold invListLoop at h
      cases hn : namesAt st.names idx with
      | error e => rw [hn] at h; simp [Bind.bind, Except.bind, Functor.map, Except.map] at h
      | ok cols =>
          rw [hn] at h
          simp only [Bind.bind, Except.bind, Functor.map, Except.map] at h
          cases hcf : cfgIndex tr idx with
          | error e => rw [hcf] at h; simp [Bind.bind, Except.bind, Functor.map, Except.map] at h
          | ok cfg =>
              rw [hcf] at h
              try simp only [Bind.bind, Except.bind, Functor.map, Except.map] at h
              cases hr : invTransformOne p st a cols cfg (key ++ "_" ++ Nat.repr idx) with
              | error e => rw [hr] at h; simp [Bind.bind, Except.bind, Functor.map, Except.map] at h
              | ok r =>
                  rw [hr] at h
                  try simp only [Bind.bind, Except.bind, Functor.map, Except.map] at h
                  have h1 : r.1 = st := invTransformOne_state hr
                  have h2 := invListLoop_state h
                  rw [h2, h1]

theorem invDictLoop_state {p : Prim σ} {tr : Option PyConfig} {key : String} :
    ∀ {l : List (String × Arr)} {st : Transformations σ}
      {acc : List (String × ArrOut)}
      {res : Transformations σ × List (String × ArrOut)},
      invDictLoop p st tr key l acc = Except.ok res → res.1 = st
  | [], st, acc, res, h => by
      simp only [invDictLoop, Except.ok.injEq] at h
      simp [← h]
  | (nm, a) :: rest, st, acc, res, h => by
      unfold invDictLoop at h
      cases hn : namesKey st.names nm with
      | error e => rw [hn] at h; simp [Bind.bind, Except.bind, Functor.map, Except.map] at h
      | ok cols =>
          rw [hn] at h
          simp only [Bind.bind, Except.bind, Functor.map, Except.map] at h
          cases hcf : cfgKey tr nm with
          | error e => rw [hcf] at h; simp [Bind.bind, Except.bind, Functor.map, Except.map] at h
          | ok cfg =>
              rw [hcf] at h
              try simp only [Bind.bind, Except.bind, Functor.map, Except.map] at h
              cases hr : invTransformOne p st a cols cfg (key ++ "_" ++ nm) with
              | error e => rw [hr] at h; simp [Bind.bind, Except.bind, Functor.map, Except.map] at h
              | ok r =>
                  rw [hr] at h
                  try simp only [Bind.bind, Except.bind, Functor.map, Except.map] at h
                  have h1 : r.1 = st := invTransformOne_state hr
                  have h2 := invDictLoop_state h
                  rw [h2, h1]

theorem _inverse_transform_state {p : Prim σ} {st : Transformations σ}
    {data : Container} {key : String}
    {res : Transformations σ × ContainerOut}
    (h : _inverse_transform p st data key = Except.ok res) :
    res.1 = st := by
  unfold _inverse_transform at h
  cases hn : getFlag "is_numpy_" st.is_numpy_ with
  | error e => rw [hn] at h; simp [Bind.bind, Except.bind, Functor.map, Except.map] at h
  | ok bNp =>
      rw [hn] at h
      simp only [Bind.bind, Except.bind, Functor.map, Except.map] at h
      by_cases hb : bNp = true
      · rw [if_pos hb] at h
        cases data with
        | np a =>
            try simp only [Bind.bind, Except.bind, Functor.map, Except.map] at h
            cases hc : namesAsCols st.names with
            | error e => rw [hc] at h; simp [Bind.bind, Except.bind, Functor.map, Except.map] at h
            | ok cols =>
                rw [hc] at h
                try simp only [Bind.bind, Except.bind, Functor.map, Except.map] at h
                cases hr : invTransformOne p st a cols (st.transformation (Container.np a)) key with
                | error e => rw [hr] at h; simp [Bind.bind, Except.bind, Functor.map, Except.map] at h
                | ok r =>
                    rw [hr] at h
                    simp only [exceptPure_ok] at h
                    rw [← h]
                    exact invTransformOne_state hr
        | list l => simp [Bind.bind, Except.bind, Functor.map, Except.map] at h
        | dict d => simp [Bind.bind, Except.bind, Functor.map, Except.map] at h
        | other => simp [Bind.bind, Except.bind, Functor.map, Except.map] at h
      · rw [if_neg hb] at h
        cases hl : getFlag "is_list_" st.is_list_ with
        | error e => rw [hl] at h; simp [Bind.bind, Except.bind, Functor.map, Except.map] at h
        | ok bL =>
            rw [hl] at h
            try simp only [Bind.bind, Except.bind, Functor.map, Except.map] at h
            by_cases hbl : bL = true
            · rw [if_pos hbl] at h
              cases data with
              | list l =>
                  try simp only [Bind.bind, Except.bind, Functor.map, Except.map] at h
                  cases hr : invListLoop p st (st.transformation (Container.list l)) key l 0 [] with
                  | error e => rw [hr] at h; simp [Bind.bind, Except.bind, Functor.map, Except.map] at h
                  | ok r =>
                      rw [hr] at h
                      simp only [exceptPure_ok] at h
                      rw [← h]
                      exact invListLoop_state hr
              | np a => simp [Bind.bind, Except.bind, Functor.map, Except.map] at h
              | dict d => simp [Bind.bind, Except.bind, Functor.map, Except.map] at h
              | other => simp [Bind.bind, Except.bind, Functor.map, Except.map] at h
            · rw [if_neg hbl] at h
              cases hd : getFlag "is_dict_" st.is_dict_ with
              | error e => rw [hd] at h; simp [Bind.bind, Except.bind, Functor.map, Except.map] at h
              | ok bD =>
                  rw [hd] at h
                  try simp only [Bind.bind, Except.bind, Functor.map, Except.map] at h
                  by_cases hbd : bD = true
                  · rw [if_pos hbd] at h
                    cases data with
                    | dict l =>
                        try simp only [Bind.bind, Except.bind, Functor.map, Except.map] at h
                        cases hr : invDictLoop p st (st.transformation (Container.dict l)) key l [] with
                        | error e => rw [hr] at h; simp [Bind.bind, Except.bind, Functor.map, Except.map] at h
                        | ok r =>
                            rw [hr] at h
                            simp only [exceptPure_ok] at h
                            rw [← h]
                            exact invDictLoop_state hr
                    | np a => simp [Bind.bind, Except.bind, Functor.map, Except.map] at h
                    | list l => simp [Bind.bind, Except.bind, Functor.map, Except.map] at h
                    | other => simp [Bind.bind, Except.bind, Functor.map, Except.map] at h
                  · rw [if_neg hbd] at h
                    simp only [exceptPure_ok] at h
                    rw [← h]

end Transformations

/-- Claim C9: the scaler registry is written only by forward transforms — an
`inverse_transform` call, on any container variant and any spec form, leaves
every registry entry of the instance exactly as it was. -/
theorem c9_inverse_preserves_registry {σ : Type} (p : Prim σ)
    (st : Transformations σ) (data : Container)
    (res : Transformations σ × ContainerOut)
    (h : Transformations.inverse_transform p st data = Except.ok res) :
    res.1.scalers = st.scalers := by
  have : res.1 = st := Transformations._inverse_transform_state h
  rw [this]

/-- Witness for C9: a concrete successful inverse call whose resulting state
carries the untouched registry. -/
theorem c9_inverse_preserves_registry_witness :
    (stFitted, ContainerOut.np (ArrOut.d2a [[(1 : ℚ)]])).1.scalers =
      stFitted.scalers :=
  c9_inverse_preserves_registry idPrim stFitted (Container.np (Arr.d2 [[1]]))
    (stFitted, ContainerOut.np (ArrOut.d2a [[1]])) (by rfl)

/-! ## Claim C6 -/

/-- Claim C6: `make_space` on features `['a','b','c']`, categories
`['none','log','minmax']`, include `['a','b']`, exclude `'a'` and append
`{'d': ['zscore']}` yields exactly the categorical dimension `b` with all
three categories followed by the dimension `d` with the single candidate
`'zscore'`. -/
theorem c6_make_space_precedence :
    make_space ["a", "b", "c"] ["none", "log", "minmax"]
      (Option.some (IncludeArg.list [IncElem.str "a", IncElem.str "b"]))
      (Option.some (ExcludeArg.str "a"))
      (Option.some [("d", SpaceVal.lst ["zscore"])]) =
    Except.ok [Categorical.mk ["none", "log", "minmax"] "b",
               Categorical.mk ["zscore"] "d"] := by
  rfl

/-! ## Claim C7 -/

/-- Claim C7 (code bug): an include list containing a single-entry
`{feature: candidates}` dictionary is documented as accepted, and the
`isinstance` dispatch in the loop body has a branch for it, but the
`assert feat in input_features` that runs first compares the dict against
the feature-name strings, always fails, and raises — even when the feature
is a valid input feature.  The dict branch is dead code. -/
theorem c7_include_dict_entry_rejected :
    make_space ["a", "b", "c"] ["none", "log", "minmax"]
      (Option.some (IncludeArg.list [IncElem.dct "b" ["log"]]))
      Option.none Option.none =
    Except.error (PyErr.assertionError
      (incElemRepr (IncElem.dct "b" ["log"]) ++
        " is not in input_features but is used in include")) := by
  rfl

/-! ## Claims C8, C5 and C2 -/

theorem mem_prependRnd {rnd : Nat → Nat → ℚ} {d : Nat} {t : Table} {row : List ℚ}
    (hrow : row ∈ prependRnd rnd d t) :
    ∃ i r, r ∈ t ∧ row = (List.range d).map (fun j => rnd i j) ++ r := by
  simp only [prependRnd, List.mem_map] at hrow
  obtain ⟨p, hp, hrow⟩ := hrow
  refine ⟨p.1, p.2, ?_, hrow.symm⟩
  have := List.mem_enum_iff_getElem?.mp hp
  exact List.getElem?_mem this

theorem prependRnd_strip (rnd : Nat → Nat → ℚ) (d : Nat) (t : Table) :
    (prependRnd rnd d t).map (List.drop d) = t := by
  simp only [prependRnd, List.map_map]
  have : ∀ p : Nat × List ℚ,
      (List.drop d ((List.range d).map (fun j => rnd p.1 j) ++ p.2)) = p.2 := by
    intro p
    have hl : ((List.range d).map (fun j => rnd p.1 j)).length = d := by simp
    rw [List.drop_left' hl]
  calc (t.enum.map (List.drop d ∘ fun p => (List.range d).map (fun j => rnd p.1 j) ++ p.2))
      = t.enum.map Prod.snd := by
        apply List.map_congr_left
        intro p _
        exact this p
    _ = t := List.enum_map_snd t

/-- Claim C8: reconciling a 2-D table of `c` columns to a recorded shape
whose last dimension is `w > c` pads it to width `w`, the added leading
columns hold only values in `[0, 1)`, and stripping exactly the reported
added count — the same `[:, dummy:]` slice the inverse path uses — returns
the original columns and values unchanged. -/
theorem c8_conform_round_trip (rnd : Nat → Nat → ℚ) (df : DF) (r w : Nat)
    (hrect : ∀ row ∈ df.rows, row.length = df.cols.length)
    (hw : df.cols.length < w)
    (hrnd : ∀ i j, 0 ≤ rnd i j ∧ rnd i j < 1) :
    ∃ out : DF,
      conform_shape rnd (PdVal.frame df) [r, w] Option.none =
        Except.ok (PdVal.frame out, (w : Int) - df.cols.length) ∧
      (∀ row ∈ out.rows, row.length = w) ∧
      (∀ row ∈ out.rows, ∀ q ∈ row.take (w - df.cols.length), 0 ≤ q ∧ q < 1) ∧
      colSliceFrom out.rows ((w : Int) - df.cols.length) = df.rows ∧
      out.cols.drop (w - df.cols.length) = df.cols := by
  have hd : ((([r, w] : List Nat).getLast?.getD 0 : Int) - pdWidth (PdVal.frame df)) =
      (w : Int) - df.cols.length := by
    simp [pdWidth]
  have hpos : ((w : Int) - df.cols.length) > 0 := by
    omega
  have htn : ((w : Int) - df.cols.length).toNat = w - df.cols.length := by
    omega
  refine ⟨DF.mk ((List.range (w - df.cols.length)).map Nat.repr ++ df.cols)
      (prependRnd rnd (w - df.cols.length) df.rows), ?_, ?_, ?_, ?_, ?_⟩
  · unfold conform_shape
    simp only [List.length_cons, List.length_nil]
    rw [if_neg (by omega)]
    simp only [hd]
    rw [if_neg (by simp), if_pos hpos]
    simp [exceptPure_ok, htn]
  · intro row hrow
    obtain ⟨i, rr, hr, hrow⟩ := mem_prependRnd hrow
    subst hrow
    simp [hrect rr hr]
    omega
  · intro row hrow q hq
    obtain ⟨i, rr, hr, hrow⟩ := mem_prependRnd hrow
    subst hrow
    rw [List.take_left' (by simp)] at hq
    simp only [List.mem_map, List.mem_range] at hq
    obtain ⟨j, _, hq⟩ := hq
    subst hq
    exact hrnd i j
  · show (prependRnd rnd (w - df.cols.length) df.rows).map
        (pySliceFrom ((w : Int) - df.cols.length)) = df.rows
    have : ∀ rr : List ℚ, pySliceFrom ((w : Int) - df.cols.length) rr =
        rr.drop (w - df.cols.length) := by
      intro rr
      simp [pySliceFrom, htn, le_of_lt hpos]
    calc (prependRnd rnd (w - df.cols.length) df.rows).map
          (pySliceFrom ((w : Int) - df.cols.length))
        = (prependRnd rnd (w - df.cols.length) df.rows).map
          (List.drop (w - df.cols.length)) := by
          apply List.map_congr_left; intro row _; exact this row
      _ = df.rows := prependRnd_strip rnd (w - df.cols.length) df.rows
  · rw [List.drop_left' (by simp)]

/-- Claim C5 (amended): a single-method inverse whose registry key is absent
raises a `ValueError` naming the missing key and listing the available keys;
a list-spec inverse whose composite key is absent raises a bare `KeyError`
naming the composite key (but not the available keys).  Neither form skips
the inversion silently. -/
theorem c5_missing_key_errors {σ : Type} (p : Prim σ) (st : Transformations σ) (t : Table)
    (cols : List String) (key m : String)
    (h1 : st.scalers.lookup key = Option.none)
    (h2 : st.scalers.lookup (key ++ "_" ++ m ++ "_" ++ Nat.repr 0) = Option.none) :
    Transformations._inverse_transform_2d p st t cols key
        (Option.some (PyConfig.str m)) =
      Except.error (PyErr.valueError
        (missingKeyMsg key (st.scalers.map Prod.fst))) ∧
    Transformations._inverse_transform_2d p st t cols key
        (Option.some (PyConfig.list [PyConfig.str m])) =
      Except.error (PyErr.keyError (key ++ "_" ++ m ++ "_" ++ Nat.repr 0)) := by
  constructor
  · unfold Transformations._inverse_transform_2d
    simp [h1]
  · simp only [Transformations._inverse_transform_2d]
    have he : (List.enum [PyConfig.str m]).reverse = [(0, PyConfig.str m)] := rfl
    rw [he]
    simp only [Transformations.inv2dItems, pyDictGet]
    rw [h2]
    rfl

theorem str_append_zero_ne_append_one (x y : String) : x ++ "0" ≠ y ++ "1" := by
  intro h
  have hd : (x ++ "0").data = x.data ++ ['0'] := by
    rw [String.data_append]
  have hd2 : (y ++ "1").data = y.data ++ ['1'] := by
    rw [String.data_append]
  have : (x.data ++ ['0']).getLast? = (y.data ++ ['1']).getLast? := by
    rw [← hd, ← hd2, h]
  rw [List.getLast?_concat, List.getLast?_concat] at this
  simp at this

/-- Claim C2: a list spec `[A, B]` is applied in list order — `B` transforms
the output of `A` — and each entry is registered under
`f"{key}_{method}_{index}"` in order; the inverse looks up the same composite
keys and applies inverse-`B` to the data before inverse-`A`. -/
theorem c2_list_spec_order {σ : Type} (p : Prim σ) (st st2 : Transformations σ)
    (t d : Table) (cols : List String) (key A B : String)
    (dA dB : ScalerDesc σ)
    (hA : st2.scalers.lookup (key ++ "_" ++ A ++ "_" ++ Nat.repr 0) =
      Option.some dA)
    (hB : st2.scalers.lookup (key ++ "_" ++ B ++ "_" ++ Nat.repr 1) =
      Option.some dB) :
    Transformations._transform_2d p st t cols
        (Option.some (PyConfig.list [PyConfig.str A, PyConfig.str B])) key =
      Except.ok ({st with scalers := (pyDictUpdate st.scalers
          [(key ++ "_" ++ A ++ "_" ++ Nat.repr 0,
              (p.trans (DF.mk cols t) (TransArgs.method A)).2),
           (key ++ "_" ++ B ++ "_" ++ Nat.repr 1,
              (p.trans (selectCols (p.trans (DF.mk cols t)
                  (TransArgs.method A)).1 cols) (TransArgs.method B)).2)])},
        (p.trans (selectCols (p.trans (DF.mk cols t) (TransArgs.method A)).1
          cols) (TransArgs.method B)).1.rows) ∧
    Transformations._inverse_transform_2d p st2 d cols key
        (Option.some (PyConfig.list [PyConfig.str A, PyConfig.str B])) =
      Except.ok (st2, PdVal.frame
        (p.invTrans (p.invTrans (DF.mk cols d) (TransArgs.method B) dB.scaler)
          (TransArgs.method A) dA.scaler)) := by
  have hne : ((key ++ "_" ++ A ++ "_" ++ Nat.repr 0) ==
      (key ++ "_" ++ B ++ "_" ++ Nat.repr 1)) = false := by
    apply beq_eq_false_iff_ne.mpr
    show (key ++ "_" ++ A ++ "_") ++ "0" ≠ (key ++ "_" ++ B ++ "_") ++ "1"
    exact str_append_zero_ne_append_one _ _
  constructor
  · simp only [Transformations._transform_2d]
    have he : (List.enum [PyConfig.str A, PyConfig.str B]) =
        [(0, PyConfig.str A), (1, PyConfig.str B)] := rfl
    simp only [cfgTruthy, he]
    simp only [Transformations.transform2dItems, Transformations.wrapDF]
    simp only [pyDictInsert, List.any_nil, Bool.false_eq_true, if_false,
      List.nil_append, List.any_cons, hne, Bool.or_false,
      Transformations.sumValues]
    rfl
  · simp only [Transformations._inverse_transform_2d]
    have he : (List.enum [PyConfig.str A, PyConfig.str B]).reverse =
        [(1, PyConfig.str B), (0, PyConfig.str A)] := rfl
    rw [he]
    simp only [Transformations.inv2dItems, pyDictGet]
    rw [hB, hA]
    rfl

/-- Witness for C8 at a concrete 2-by-2 table padded to width 5. -/
theorem c8_conform_round_trip_witness :
    ∃ out : DF,
      conform_shape (fun _ _ => 1/2)
          (PdVal.frame (DF.mk ["a", "b"] [[1, 2], [3, 4]])) [2, 5]
          Option.none =
        Except.ok (PdVal.frame out, (5 : Int) - 2) ∧
      (∀ row ∈ out.rows, row.length = 5) ∧
      (∀ row ∈ out.rows, ∀ q ∈ row.take (5 - 2), 0 ≤ q ∧ q < 1) ∧
      colSliceFrom out.rows ((5 : Int) - 2) = [[1, 2], [3, 4]] ∧
      out.cols.drop (5 - 2) = ["a", "b"] :=
  c8_conform_round_trip (fun _ _ => 1/2) (DF.mk ["a", "b"] [[1, 2], [3, 4]])
    2 5 (by decide) (by decide)
    (fun i j => ⟨by norm_num, by norm_num⟩)

/-- Counterexample for C5: with a list spec, a missing registry key surfaces
as a bare `KeyError` carrying only the composite key — not the `ValueError`
that names the available keys, contradicting the claim that every spec form
reports the available keys. -/
theorem c5_counterexample :
    Transformations.inverse_transform idPrim stC5
        (Container.dict [("b", Arr.d2 [[1]])]) =
      Except.error (PyErr.keyError "5_b_minmax_0") ∧
    PyErr.keyError "5_b_minmax_0" ≠
      PyErr.valueError (missingKeyMsg "5_b_minmax_0" []) := by
  constructor
  · rfl
  · decide

/-- Witness for C5 on a never-fitted instance with an empty registry. -/
theorem c5_missing_key_errors_witness :
    (Transformations._inverse_transform_2d idPrim stMinmax [[1]] ["a"] "5"
        (Option.some (PyConfig.str "minmax")) =
      Except.error (PyErr.valueError (missingKeyMsg "5" [])) ∧
    Transformations._inverse_transform_2d idPrim stMinmax [[1]] ["a"] "5"
        (Option.some (PyConfig.list [PyConfig.str "minmax"])) =
      Except.error (PyErr.keyError "5_minmax_0")) := by
  have h := c5_missing_key_errors idPrim stMinmax [[1]] ["a"] "5" "minmax"
    (by rfl) (by rfl)
  exact h

/-- Witness for C2 with the identity primitive and a fitted registry. -/
theorem c2_list_spec_order_witness :
    (Transformations._transform_2d idPrim stMinmax [[1]] ["a"]
        (Option.some (PyConfig.list [PyConfig.str "mm", PyConfig.str "zs"]))
        "5" =
      Except.ok ({stMinmax with scalers := (pyDictUpdate stMinmax.scalers
          [("5" ++ "_" ++ "mm" ++ "_" ++ Nat.repr 0,
              (idPrim.trans (DF.mk ["a"] [[1]]) (TransArgs.method "mm")).2),
           ("5" ++ "_" ++ "zs" ++ "_" ++ Nat.repr 1,
              (idPrim.trans (selectCols (idPrim.trans (DF.mk ["a"] [[1]])
                  (TransArgs.method "mm")).1 ["a"])
                (TransArgs.method "zs")).2)])},
        (idPrim.trans (selectCols (idPrim.trans (DF.mk ["a"] [[1]])
          (TransArgs.method "mm")).1 ["a"]) (TransArgs.method "zs")).1.rows) ∧
    Transformations._inverse_transform_2d idPrim stC2 [[1]] ["a"] "5"
        (Option.some (PyConfig.list [PyConfig.str "mm", PyConfig.str "zs"])) =
      Except.ok (stC2, PdVal.frame
        (idPrim.invTrans
          (idPrim.invTrans (DF.mk ["a"] [[1]]) (TransArgs.method "zs")
            (ScalerDesc.mk () [1, 1] "zs").scaler)
          (TransArgs.method "mm")
          (ScalerDesc.mk () [1, 1] "mm").scaler))) :=
  c2_list_spec_order idPrim stMinmax stC2 [[1]] [[1]] ["a"] "5" "mm" "zs"
    (ScalerDesc.mk () [1, 1] "mm") (ScalerDesc.mk () [1, 1] "zs")
    (by rfl) (by rfl)

theorem decChars_eq (n : Nat) : decChars n =
    if n < 10 then [Nat.digitChar n]
    else decChars (n / 10) ++ [Nat.digitChar (n % 10)] := by
  rw [decChars]
  split <;> rfl

theorem toDigitsCore_decChars :
    ∀ (f n : Nat) (l : List Char), n < f →
      Nat.toDigitsCore 10 f n l = decChars n ++ l := by
  intro f
  induction f with
  | zero => intro n l h; omega
  | succ f ih =>
      intro n l h
      rw [Nat.toDigitsCore]
      by_cases h10 : n / 10 = 0
      · have hn : n < 10 := by omega
        rw [if_pos h10, decChars_eq, if_pos hn, Nat.mod_eq_of_lt hn]
        rfl
      · have hn : ¬ n < 10 := by
          intro hc
          exact h10 (Nat.div_eq_of_lt hc)
        rw [if_neg h10, ih (n / 10) _ (by
          have : n / 10 < n := Nat.div_lt_self (by omega) (by norm_num)
          omega)]
        rw [decChars_eq n, if_neg hn, List.append_assoc]
        rfl

theorem repr_decChars (n : Nat) : Nat.repr n = (decChars n).asString := by
  unfold Nat.repr Nat.toDigits
  rw [toDigitsCore_decChars (n + 1) n [] (by omega), List.append_nil]

theorem digitChar_inj :
    ∀ a, a < 10 → ∀ b, b < 10 → Nat.digitChar a = Nat.digitChar b → a = b := by
  decide

theorem decChars_ne_nil (n : Nat) : decChars n ≠ [] := by
  rw [decChars_eq]
  split
  · simp
  · simp

theorem decChars_inj : ∀ m, ∀ n, decChars m = decChars n → m = n := by
  intro m
  induction m using Nat.strong_induction_on with
  | _ m ih =>
      intro n h
      by_cases hm : m < 10 <;> by_cases hn : n < 10
      · rw [decChars_eq m, if_pos hm, decChars_eq n, if_pos hn] at h
        simp only [List.cons.injEq, and_true] at h
        exact digitChar_inj m hm n hn h
      · rw [decChars_eq m, if_pos hm, decChars_eq n, if_neg hn] at h
        have hlen := congrArg List.length h
        have hne := decChars_ne_nil (n / 10)
        cases hd : decChars (n / 10) with
        | nil => exact absurd hd hne
        | cons a l =>
            rw [hd] at hlen
            simp at hlen
      · rw [decChars_eq m, if_neg hm, decChars_eq n, if_pos hn] at h
        have hlen := congrArg List.length h
        have hne := decChars_ne_nil (m / 10)
        cases hd : decChars (m / 10) with
        | nil => exact absurd hd hne
        | cons a l =>
            rw [hd] at hlen
            simp at hlen
      · rw [decChars_eq m, if_neg hm, decChars_eq n, if_neg hn] at h
        have hlen : ([Nat.digitChar (m % 10)] : List Char).length =
            ([Nat.digitChar (n % 10)] : List Char).length := by simp
        obtain ⟨h1, h2⟩ := List.append_inj' h hlen
        have hdiv : m / 10 = n / 10 :=
          ih (m / 10) (Nat.div_lt_self (by omega) (by norm_num)) (n / 10) h1
        simp only [List.cons.injEq, and_true] at h2
        have hmod : m % 10 = n % 10 :=
          digitChar_inj _ (Nat.mod_lt _ (by norm_num)) _
            (Nat.mod_lt _ (by norm_num)) h2
        omega

theorem Nat_repr_inj {m n : Nat} (h : Nat.repr m = Nat.repr n) : m = n := by
  rw [repr_decChars, repr_decChars] at h
  apply decChars_inj
  have : (decChars m).asString.data = (decChars n).asString.data := by rw [h]
  simpa [List.asString] using this

theorem digitChar_ne_underscore : ∀ a, a < 10 → Nat.digitChar a ≠ '_' := by
  decide

theorem decChars_no_underscore : ∀ n, '_' ∉ decChars n := by
  intro n
  induction n using Nat.strong_induction_on with
  | _ n ih =>
      rw [decChars_eq n]
      by_cases hn : n < 10
      · rw [if_pos hn]
        simp only [List.mem_singleton]
        exact fun hc => digitChar_ne_underscore n hn hc.symm
      · rw [if_neg hn]
        simp only [List.mem_append, List.mem_singleton, not_or]
        constructor
        · exact ih (n / 10) (Nat.div_lt_self (by omega) (by norm_num))
        · intro hc
          exact digitChar_ne_underscore (n % 10) (Nat.mod_lt _ (by norm_num)) hc.symm

theorem Nat_repr_no_underscore (n : Nat) : '_' ∉ (Nat.repr n).data := by
  rw [repr_decChars]
  simpa [List.asString] using decChars_no_underscore n

theorem intercalate_cons₂ (a b : List Char) (rest : List (List Char)) :
    List.intercalate ['_'] (a :: b :: rest) =
      a ++ ['_'] ++ List.intercalate ['_'] (b :: rest) := by
  simp [List.intercalate, List.intersperse_cons_cons]

theorem sJoin_data : ∀ ps : List String,
    (sJoin ps).data = List.intercalate ['_'] (ps.map String.data)
  | [] => by simp [sJoin, List.intercalate]
  | [s] => by simp [sJoin, List.intercalate]
  | s :: r :: rest => by
      show (s ++ "_" ++ sJoin (r :: rest)).data = _
      rw [String.data_append, String.data_append, sJoin_data (r :: rest)]
      conv_rhs => rw [List.map_cons, List.map_cons, intercalate_cons₂]
      rw [List.map_cons]

theorem string_data_inj : Function.Injective String.data := by
  intro a b h
  cases a; cases b; exact congrArg String.mk h

theorem sJoin_inj {ps qs : List String} (hp : ps ≠ []) (hq : qs ≠ [])
    (hfp : ∀ s ∈ ps, undFree s) (hfq : ∀ s ∈ qs, undFree s)
    (h : sJoin ps = sJoin qs) : ps = qs := by
  have hd : (sJoin ps).data = (sJoin qs).data := by rw [h]
  rw [sJoin_data, sJoin_data] at hd
  have h1 : (List.intercalate ['_'] (ps.map String.data)).splitOn '_' =
      ps.map String.data := by
    apply List.splitOn_intercalate
    · intro l hl
      simp only [List.mem_map] at hl
      obtain ⟨s, hs, rfl⟩ := hl
      exact hfp s hs
    · simpa using hp
  have h2 : (List.intercalate ['_'] (qs.map String.data)).splitOn '_' =
      qs.map String.data := by
    apply List.splitOn_intercalate
    · intro l hl
      simp only [List.mem_map] at hl
      obtain ⟨s, hs, rfl⟩ := hl
      exact hfq s hs
    · simpa using hq
  have : ps.map String.data = qs.map String.data := by
    rw [← h1, ← h2, hd]
  exact List.map_injective_iff.mpr string_data_inj this

theorem sJoin_snoc : ∀ (l : List String) (x : String), l ≠ [] →
    sJoin (l ++ [x]) = sJoin l ++ "_" ++ x
  | [], _, h => absurd rfl h
  | [a], x, _ => rfl
  | a :: b :: rest, x, _ => by
      show sJoin (a :: ((b :: rest) ++ [x])) = _
      have h1 : sJoin (a :: ((b :: rest) ++ [x])) =
          a ++ "_" ++ sJoin ((b :: rest) ++ [x]) := by
        cases rest <;> rfl
      rw [h1, sJoin_snoc (b :: rest) x (by simp)]
      have h2 : sJoin (a :: b :: rest) = a ++ "_" ++ sJoin (b :: rest) := by
        cases rest <;> rfl
      rw [h2]
      apply string_data_inj
      simp [String.data_append]

theorem append_ne_of_ne_at {P Q tp tq : List String} (j : Nat)
    (hj1 : j < P.length) (hj2 : j < Q.length)
    (hne : P[j]? ≠ Q[j]?) : P ++ tp ≠ Q ++ tq := by
  intro h
  apply hne
  have e1 : (P ++ tp)[j]? = P[j]? := by
    rw [List.getElem?_append]
    exact if_pos hj1
  have e2 : (Q ++ tq)[j]? = Q[j]? := by
    rw [List.getElem?_append]
    exact if_pos hj2
  rw [← e1, ← e2, h]

/-! Registry (python dict) lemmas -/

theorem keys_pyDictInsert {α : Type} (d : List (String × α)) (k : String)
    (v : α) :
    (pyDictInsert d k v).map Prod.fst =
      if k ∈ d.map Prod.fst then d.map Prod.fst else d.map Prod.fst ++ [k] := by
  unfold pyDictInsert
  by_cases hm : k ∈ d.map Prod.fst
  · have ha : d.any (fun p => p.1 == k) = true := by
      simp only [List.any_eq_true]
      simp only [List.mem_map] at hm
      obtain ⟨p, hp, hk⟩ := hm
      exact ⟨p, hp, by simp [hk]⟩
    rw [if_pos ha, if_pos hm]
    rw [List.map_map]
    apply List.map_congr_left
    intro p _
    by_cases he : p.1 = k
    · simp [he]
    · simp [he]
  · have ha : d.any (fun p => p.1 == k) = false := by
      simp only [List.any_eq_false]
      intro p hp
      simp only [beq_iff_eq]
      intro hc
      exact hm (List.mem_map.mpr ⟨p, hp, hc⟩)
    rw [if_neg (by simp [ha]), if_neg hm]
    simp

theorem nodup_keys_pyDictInsert {α : Type} {d : List (String × α)}
    (hd : (d.map Prod.fst).Nodup) (k : String) (v : α) :
    ((pyDictInsert d k v).map Prod.fst).Nodup := by
  rw [keys_pyDictInsert]
  by_cases hm : k ∈ d.map Prod.fst
  · rw [if_pos hm]; exact hd
  · rw [if_neg hm]
    rw [List.nodup_append]
    refine ⟨hd, List.nodup_singleton k, ?_⟩
    intro a ha
    simp only [List.mem_singleton]
    intro hc
    subst hc
    exact hm ha

theorem mem_keys_pyDictInsert {α : Type} {d : List (String × α)} {k k' : String}
    {v : α} (h : k' ∈ (pyDictInsert d k v).map Prod.fst) :
    k' ∈ d.map Prod.fst ∨ k' = k := by
  rw [keys_pyDictInsert] at h
  by_cases hm : k ∈ d.map Prod.fst
  · rw [if_pos hm] at h; exact Or.inl h
  · rw [if_neg hm] at h
    simpa using h

theorem pyDictUpdate_append {α : Type} (R a b : List (String × α)) :
    pyDictUpdate (pyDictUpdate R a) b = pyDictUpdate R (a ++ b) := by
  unfold pyDictUpdate
  rw [List.foldl_append]

theorem pyDictInsert_fresh {α : Type} {d : List (String × α)} {k : String}
    (v : α) (h : k ∉ d.map Prod.fst) : pyDictInsert d k v = d ++ [(k, v)] := by
  have ha : d.any (fun p => p.1 == k) = false := by
    simp only [List.any_eq_false]
    intro p hp
    simp only [beq_iff_eq]
    intro hc
    exact h (List.mem_map.mpr ⟨p, hp, hc⟩)
  unfold pyDictInsert
  rw [ha]
  simp

theorem pyDictUpdate_fresh {α : Type} :
    ∀ (ws R : List (String × α)),
      (∀ k ∈ ws.map Prod.fst, k ∉ R.map Prod.fst) →
      (ws.map Prod.fst).Nodup →
      pyDictUpdate R ws = R ++ ws := by
  intro ws
  induction ws with
  | nil => intro R _ _; simp [pyDictUpdate]
  | cons w ws ih =>
      intro R hdisj hnd
      simp only [List.map_cons, List.nodup_cons] at hnd
      obtain ⟨hw, hnd2⟩ := hnd
      have h1 : w.1 ∉ R.map Prod.fst := hdisj w.1 (by simp)
      have step : pyDictUpdate R (w :: ws) =
          pyDictUpdate (pyDictInsert R w.1 w.2) ws := rfl
      rw [step, pyDictInsert_fresh w.2 h1]
      have hdisj2 : ∀ k ∈ ws.map Prod.fst,
          k ∉ (R ++ [(w.1, w.2)]).map Prod.fst := by
        intro k hk
        simp only [List.map_append, List.mem_append, List.map_cons,
          List.map_nil, List.mem_singleton, not_or]
        refine ⟨hdisj k (by simp [hk]), ?_⟩
        intro hc
        subst hc
        exact hw hk
      rw [ih (R ++ [(w.1, w.2)]) hdisj2 hnd2]
      simp

/-! Registry lookup lemmas -/

theorem lookup_cons_eq {α : Type} (p : String × α) (tl : List (String × α))
    (k : String) (h : (k == p.1) = true) :
    List.lookup k (p :: tl) = Option.some p.2 := by
  simp [List.lookup, h]

theorem lookup_cons_ne {α : Type} (p : String × α) (tl : List (String × α))
    (k : String) (h : (k == p.1) = false) :
    List.lookup k (p :: tl) = List.lookup k tl := by
  simp [List.lookup, h]

theorem lookup_eq_none_of_not_mem {α : Type} :
    ∀ {d : List (String × α)} {k : String}, k ∉ d.map Prod.fst →
      d.lookup k = Option.none
  | [], _, _ => rfl
  | p :: tl, k, h => by
      simp only [List.map_cons, List.mem_cons, not_or] at h
      rw [lookup_cons_ne p tl k (beq_eq_false_iff_ne.mpr h.1)]
      exact lookup_eq_none_of_not_mem h.2

theorem lookup_map_replace {α : Type} {k : String} {v : α} :
    ∀ {d : List (String × α)}, k ∈ d.map Prod.fst →
      (d.map (fun p => if p.1 == k then (k, v) else p)).lookup k =
        Option.some v
  | [], h => by simp at h
  | p :: tl, h => by
      simp only [List.map_cons]
      by_cases he : p.1 = k
      · have hb : (p.1 == k) = true := by simpa using he
        rw [if_pos hb]
        exact lookup_cons_eq (k, v) _ k (by simp)
      · have hb : (p.1 == k) = false := by simpa using he
        rw [if_neg (by simp [hb])]
        rw [lookup_cons_ne p _ k (beq_eq_false_iff_ne.mpr (fun hc => he hc.symm))]
        apply lookup_map_replace
        simp only [List.map_cons, List.mem_cons] at h
        rcases h with h | h
        · exact absurd h.symm he
        · exact h

theorem lookup_pyDictInsert_self {α : Type} (d : List (String × α))
    (k : String) (v : α) : (pyDictInsert d k v).lookup k = Option.some v := by
  unfold pyDictInsert
  by_cases hm : k ∈ d.map Prod.fst
  · have ha : d.any (fun p => p.1 == k) = true := by
      simp only [List.any_eq_true]
      simp only [List.mem_map] at hm
      obtain ⟨p, hp, hk⟩ := hm
      exact ⟨p, hp, by simp [hk]⟩
    rw [if_pos ha]
    exact lookup_map_replace hm
  · have ha : d.any (fun p => p.1 == k) = false := by
      simp only [List.any_eq_false]
      intro p hp
      simp only [beq_iff_eq]
      intro hc
      exact hm (List.mem_map.mpr ⟨p, hp, hc⟩)
    rw [if_neg (by simp [ha])]
    have h1 : d.lookup k = Option.none := lookup_eq_none_of_not_mem hm
    clear ha hm
    induction d with
    | nil => exact lookup_cons_eq (k, v) [] k (by simp)
    | cons p tl ih =>
        by_cases he : (k == p.1) = true
        · rw [lookup_cons_eq p tl k he] at h1
          exact absurd h1 (by simp)
        · have he2 : (k == p.1) = false := by
            cases hx : (k == p.1) with
            | true => exact absurd hx he
            | false => rfl
          rw [lookup_cons_ne p tl k he2] at h1
          rw [List.cons_append, lookup_cons_ne p _ k he2]
          exact ih h1

theorem lookup_append_assoc {α : Type} :
    ∀ (d e : List (String × α)) (k : String),
      (d ++ e).lookup k =
        match d.lookup k with
        | Option.some v => Option.some v
        | Option.none => e.lookup k
  | [], _, _ => rfl
  | p :: tl, e, k => by
      rw [List.cons_append]
      by_cases he : (k == p.1) = true
      · rw [lookup_cons_eq p _ k he, lookup_cons_eq p tl k he]
      · have he2 : (k == p.1) = false := by
          cases hx : (k == p.1) with
          | true => exact absurd hx he
          | false => rfl
        rw [lookup_cons_ne p _ k he2, lookup_cons_ne p tl k he2]
        exact lookup_append_assoc tl e k

theorem lookup_pyDictInsert_ne {α : Type} (d : List (String × α))
    (k' : String) (v : α) (k : String) (hne : k ≠ k') :
    (pyDictInsert d k' v).lookup k = d.lookup k := by
  unfold pyDictInsert
  by_cases hm : k' ∈ d.map Prod.fst
  · have ha : d.any (fun p => p.1 == k') = true := by
      simp only [List.any_eq_true]
      simp only [List.mem_map] at hm
      obtain ⟨p, hp, hk⟩ := hm
      exact ⟨p, hp, by simp [hk]⟩
    rw [if_pos ha]
    clear ha hm
    induction d with
    | nil => rfl
    | cons p tl ih =>
        simp only [List.map_cons]
        by_cases he : p.1 = k'
        · have hb : (p.1 == k') = true := by simpa using he
          rw [if_pos hb]
          have hk1 : (k == k') = false := beq_eq_false_iff_ne.mpr hne
          have hk2 : (k == p.1) = false :=
            beq_eq_false_iff_ne.mpr (by rw [he]; exact hne)
          rw [lookup_cons_ne (k', v) _ k hk1, lookup_cons_ne p tl k hk2]
          exact ih
        · have hb : (p.1 == k') = false := by simpa using he
          rw [if_neg (by simp [hb])]
          by_cases hk : (k == p.1) = true
          · rw [lookup_cons_eq p _ k hk, lookup_cons_eq p tl k hk]
          · have hk2 : (k == p.1) = false := by
              cases hx : (k == p.1) with
              | true => exact absurd hx hk
              | false => rfl
            rw [lookup_cons_ne p _ k hk2, lookup_cons_ne p tl k hk2]
            exact ih
  · have ha : d.any (fun p => p.1 == k') = false := by
      simp only [List.any_eq_false]
      intro p hp
      simp only [beq_iff_eq]
      intro hc
      exact hm (List.mem_map.mpr ⟨p, hp, hc⟩)
    rw [if_neg (by simp [ha])]
    rw [lookup_append_assoc]
    cases hd : d.lookup k with
    | some v2 => rfl
    | none =>
        rw [lookup_cons_ne (k', v) [] k (beq_eq_false_iff_ne.mpr hne)]
        rfl

theorem lookup_pyDictUpdate_not_mem {α : Type} :
    ∀ (ws R : List (String × α)) (k : String), k ∉ ws.map Prod.fst →
      (pyDictUpdate R ws).lookup k = R.lookup k
  | [], _, _, _ => rfl
  | w :: ws, R, k, h => by
      simp only [List.map_cons, List.mem_cons, not_or] at h
      have step : pyDictUpdate R (w :: ws) =
          pyDictUpdate (pyDictInsert R w.1 w.2) ws := rfl
      rw [step, lookup_pyDictUpdate_not_mem ws _ k h.2,
        lookup_pyDictInsert_ne R w.1 w.2 k h.1]

theorem lookup_pyDictUpdate_mem {α : Type} :
    ∀ (ws R : List (String × α)) (k : String) (v : α),
      (ws.map Prod.fst).Nodup → (k, v) ∈ ws →
      (pyDictUpdate R ws).lookup k = Option.some v
  | [], _, _, _, _, hm => by simp at hm
  | w :: ws, R, k, v, hnd, hm => by
      simp only [List.map_cons, List.nodup_cons] at hnd
      have step : pyDictUpdate R (w :: ws) =
          pyDictUpdate (pyDictInsert R w.1 w.2) ws := rfl
      rw [step]
      rcases List.mem_cons.mp hm with h | h
      · subst h
        rw [lookup_pyDictUpdate_not_mem ws _ k hnd.1]
        exact lookup_pyDictInsert_self R k v
      · exact lookup_pyDictUpdate_mem ws _ k v hnd.2 h

theorem transformation_broadcastCfg {σ : Type} (st : Transformations σ)
    (data : Container) :
    Transformations.transformation st data = broadcastCfg st.config data := rfl

namespace Transformations

variable {σ : Type}

theorem transform2dItems_writes {p : Prim σ} {cols : List String} {key : String} :
    ∀ {items : List (Nat × PyConfig)} {acc : Sum Table DF}
      {scalers : List (String × ScalerDesc σ)}
      {r : Sum Table DF × List (String × ScalerDesc σ)},
      transform2dItems p cols key items acc scalers = Except.ok r →
      r.2 = itemsWrites p cols key items acc scalers
  | [], acc, scalers, r, h => by
      simp only [transform2dItems, Except.ok.injEq] at h
      rw [← h]
      rfl
  | (idx, tr) :: rest, acc, scalers, r, h => by
      cases tr with
      | str m =>
          simp only [transform2dItems] at h
          have := transform2dItems_writes h
          rw [this]
          rfl
      | descr d =>
          cases hm : d.method with
          | none =>
              simp only [transform2dItems, hm] at h
              have := transform2dItems_writes h
              rw [this]
              simp [itemsWrites, hm]
          | some m =>
              simp only [transform2dItems, hm] at h
              have := transform2dItems_writes h
              rw [this]
              simp [itemsWrites, hm]
      | list l => exact absurd h (by simp [transform2dItems])
      | dict dd => exact absurd h (by simp [transform2dItems])

theorem _transform_2d_writes {p : Prim σ} {st : Transformations σ} {t : Table}
    {cols : List String} {tr : Option PyConfig} {key : String}
    {r : Transformations σ × Table}
    (h : _transform_2d p st t cols tr key = Except.ok r) :
    r.1 = {st with scalers := pyDictUpdate st.scalers (writes2d p t cols tr key)} := by
  by_cases htr : cfgTruthy tr = true
  · cases tr with
    | none => simp [cfgTruthy] at htr
    | some c =>
      cases c with
      | descr d =>
          simp only [_transform_2d, htr, if_true, exceptPure_ok] at h
          simp only [writes2d, htr, if_true]
          rw [← h]
      | str m =>
          simp only [_transform_2d, htr, if_true, exceptPure_ok] at h
          simp only [writes2d, htr, if_true]
          rw [← h]
      | dict dd =>
          simp only [_transform_2d, htr, if_true] at h
          exact absurd h (by simp)
      | list l =>
          simp only [_transform_2d, htr, if_true] at h
          simp only [writes2d, htr, if_true]
          cases hx : transform2dItems p cols key l.enum (Sum.inl t) [] with
          | error e => rw [hx] at h; simp [Bind.bind, Except.bind] at h
          | ok v =>
              rw [hx] at h
              simp only [Bind.bind, Except.bind] at h
              cases hv : sumValues v.1 with
              | error e => rw [hv] at h; simp at h
              | ok vals =>
                  rw [hv] at h
                  simp only [exceptPure_ok] at h
                  rw [← h]
                  rw [← transform2dItems_writes hx]
  · simp only [_transform_2d, htr, Bool.false_eq_true, if_false, exceptPure_ok] at h
    simp only [writes2d, htr, Bool.false_eq_true, if_false]
    rw [← h]
    simp [pyDictUpdate]

theorem fit3dLoop_writes {p : Prim σ} {cols : List String}
    {tr : Option PyConfig} {key : String} :
    ∀ {slices : List Table} {st : Transformations σ} {ts : Nat}
      {acc : List Table} {r : Transformations σ × List Table},
      fit3dLoop p st cols tr key slices ts acc = Except.ok r →
      r.1 = {st with scalers := (pyDictUpdate st.scalers
        (((List.enumFrom ts slices).map
          (fun pr => writes2d p pr.2 cols tr (key ++ "_" ++ Nat.repr pr.1))).flatten))}
  | [], st, ts, acc, r, h => by
      simp only [fit3dLoop, Except.ok.injEq] at h
      rw [← h]
      simp [pyDictUpdate]
  | s :: rest, st, ts, acc, r, h => by
      unfold fit3dLoop at h
      cases hx : _transform_2d p st s cols tr (key ++ "_" ++ Nat.repr ts) with
      | error e => rw [hx] at h; simp [Bind.bind, Except.bind] at h
      | ok v =>
          rw [hx] at h
          simp only [Bind.bind, Except.bind] at h
          have h1 := _transform_2d_writes hx
          have h2 := fit3dLoop_writes h
          rw [h2, h1]
          simp only [List.enumFrom, List.map_cons, List.flatten_cons]
          rw [pyDictUpdate_append]

theorem fitTransformOne_writes {p : Prim σ} {st : Transformations σ}
    {data : Arr} {cols : List String} {tr : Option PyConfig} {key : String}
    {r : Transformations σ × Arr}
    (h : fitTransformOne p st data cols tr key = Except.ok r) :
    r.1 = {st with scalers := pyDictUpdate st.scalers (arrWrites p data cols tr key)} := by
  cases data with
  | d3 slices =>
      simp only [fitTransformOne] at h
      cases hx : fit3dLoop p st cols tr key slices 0 [] with
      | error e => rw [hx] at h; simp [Bind.bind, Except.bind] at h
      | ok v =>
          rw [hx] at h
          simp only [Bind.bind, Except.bind, exceptPure_ok] at h
          have h1 := fit3dLoop_writes hx
          rw [← h]
          rw [h1]
          rfl
  | d2 t =>
      simp only [fitTransformOne] at h
      cases hx : _transform_2d p st t cols tr key with
      | error e => rw [hx] at h; simp [Bind.bind, Except.bind] at h
      | ok v =>
          rw [hx] at h
          simp only [Bind.bind, Except.bind, exceptPure_ok] at h
          have h1 := _transform_2d_writes hx
          rw [← h, h1]
          rfl

theorem fitListLoop_writes {p : Prim σ} {tr : Option PyConfig} {key : String} :
    ∀ {l : List Arr} {st : Transformations σ} {idx : Nat} {acc : List Arr}
      {r : Transformations σ × List Arr},
      fitListLoop p st tr key l idx acc = Except.ok r →
      r.1 = {st with scalers := (pyDictUpdate st.scalers
        (((List.enumFrom idx l).map (fun pr => arrWrites p pr.2
          ((namesAt st.names pr.1).toOption.getD [])
          ((cfgIndex tr pr.1).toOption.getD Option.none)
          (key ++ "_" ++ Nat.repr pr.1))).flatten))}
  | [], st, idx, acc, r, h => by
      simp only [fitListLoop, Except.ok.injEq] at h
      rw [← h]
      simp [pyDictUpdate]
  | a :: rest, st, idx, acc, r, h => by
      unfold fitListLoop at h
      cases hn : namesAt st.names idx with
      | error e => rw [hn] at h; simp [Bind.bind, Except.bind] at h
      | ok cols =>
          rw [hn] at h
          simp only [Bind.bind, Except.bind] at h
          cases hcf : cfgIndex tr idx with
          | error e => rw [hcf] at h; simp at h
          | ok cfg =>
              rw [hcf] at h
              simp only [] at h
              cases hr : fitTransformOne p st a cols cfg (key ++ "_" ++ Nat.repr idx) with
              | error e => rw [hr] at h; simp at h
              | ok v =>
                  rw [hr] at h
                  simp only [] at h
                  have h1 := fitTransformOne_writes hr
                  have h2 := fitListLoop_writes h
                  rw [h2, h1]
                  simp only [List.enumFrom, List.map_cons, List.flatten_cons, hn, hcf]
                  rw [pyDictUpdate_append]
                  rfl

theorem fitDictLoop_writes {p : Prim σ} {tr : Option PyConfig} {key : String} :
    ∀ {l : List (String × Arr)} {st : Transformations σ}
      {acc : List (String × Arr)} {r : Transformations σ × List (String × Arr)},
      fitDictLoop p st tr key l acc = Except.ok r →
      r.1 = {st with scalers := (pyDictUpdate st.scalers
        ((l.map (fun pr => arrWrites p pr.2
          ((namesKey st.names pr.1).toOption.getD [])
          ((cfgKey tr pr.1).toOption.getD Option.none)
          (key ++ "_" ++ pr.1))).flatten))}
  | [], st, acc, r, h => by
      simp only [fitDictLoop, Except.ok.injEq] at h
      rw [← h]
      simp [pyDictUpdate]
  | (nm, a) :: rest, st, acc, r, h => by
      unfold fitDictLoop at h
      cases hn : namesKey st.names nm with
      | error e => rw [hn] at h; simp [Bind.bind, Except.bind] at h
      | ok cols =>
          rw [hn] at h
          simp only [Bind.bind, Except.bind] at h
          cases hcf : cfgKey tr nm with
          | error e => rw [hcf] at h; simp at h
          | ok cfg =>
              rw [hcf] at h
              simp only [] at h
              cases hr : fitTransformOne p st a cols cfg (key ++ "_" ++ nm) with
              | error e => rw [hr] at h; simp at h
              | ok v =>
                  rw [hr] at h
                  simp only [] at h
                  have h1 := fitTransformOne_writes hr
                  have h2 := fitDictLoop_writes h
                  rw [h2, h1]
                  simp only [List.map_cons, List.flatten_cons, hn, hcf]
                  rw [pyDictUpdate_append]
                  rfl

theorem _fit_transform_writes {p : Prim σ} {st : Transformations σ}
    {data : Container} {r : Transformations σ × Container}
    (h : _fit_transform p st data "5" = Except.ok r) :
    r.1 = {st with scalers := (pyDictUpdate st.scalers
      (fitWrites p st.names st.config data))} := by
  unfold _fit_transform at h
  rw [transformation_broadcastCfg] at h
  cases hn : getFlag "is_numpy_" st.is_numpy_ with
  | error e => rw [hn] at h; simp [Bind.bind, Except.bind] at h
  | ok bNp =>
      rw [hn] at h
      simp only [Bind.bind, Except.bind] at h
      by_cases hb : bNp = true
      · rw [if_pos hb] at h
        cases data with
        | np a =>
            simp only [] at h
            cases hc : namesAsCols st.names with
            | error e => rw [hc] at h; simp at h
            | ok cols =>
                rw [hc] at h
                simp only [] at h
                cases hr : fitTransformOne p st a cols (broadcastCfg st.config (Container.np a)) "5" with
                | error e => rw [hr] at h; simp at h
                | ok v =>
                    rw [hr] at h
                    simp only [exceptPure_ok] at h
                    rw [← h]
                    have h1 := fitTransformOne_writes hr
                    rw [h1]
                    simp only [fitWrites, hc]
                    rfl
        | list l => simp at h
        | dict d => simp at h
        | other => simp at h
      · rw [if_neg hb] at h
        cases hl : getFlag "is_list_" st.is_list_ with
        | error e => rw [hl] at h; simp at h
        | ok bL =>
            rw [hl] at h
            simp only [] at h
            by_cases hbl : bL = true
            · rw [if_pos hbl] at h
              cases data with
              | list l =>
                  simp only [] at h
                  cases hr : fitListLoop p st (broadcastCfg st.config (Container.list l)) "5" l 0 [] with
                  | error e => rw [hr] at h; simp at h
                  | ok v =>
                      rw [hr] at h
                      simp only [exceptPure_ok] at h
                      rw [← h]
                      have h1 := fitListLoop_writes hr
                      rw [h1]
                      simp only [fitWrites]
                      rfl
              | np a => simp at h
              | dict d => simp at h
              | other => simp at h
            · rw [if_neg hbl] at h
              cases hd : getFlag "is_dict_" st.is_dict_ with
              | error e => rw [hd] at h; simp at h
              | ok bD =>
                  rw [hd] at h
                  simp only [] at h
                  by_cases hbd : bD = true
                  · rw [if_pos hbd] at h
                    cases data with
                    | dict l =>
                        simp only [] at h
                        cases hr : fitDictLoop p st (broadcastCfg st.config (Container.dict l)) "5" l [] with
                        | error e => rw [hr] at h; simp at h
                        | ok v =>
                            rw [hr] at h
                            simp only [exceptPure_ok] at h
                            rw [← h]
                            have h1 := fitDictLoop_writes hr
                            rw [h1]
                            simp only [fitWrites]
                    | np a => simp at h
                    | list l => simp at h
                    | other => simp at h
                  · rw [if_neg hbd] at h
                    simp at h

theorem flatten_all_nil {α : Type} :
    ∀ (xs : List (List α)), (∀ x ∈ xs, x = []) → xs.flatten = []
  | [], _ => rfl
  | x :: xs, h => by
      rw [List.flatten_cons, h x (by simp), flatten_all_nil xs
        (fun y hy => h y (by simp [hy]))]
      rfl

theorem arrWrites_none {σ : Type} (p : Prim σ) (a : Arr) (cols : List String)
    (key : String) : arrWrites p a cols Option.none key = [] := by
  cases a with
  | d2 t => simp [arrWrites, writes2d, cfgTruthy]
  | d3 s =>
      simp only [arrWrites]
      apply flatten_all_nil
      intro x hx
      simp only [List.mem_map] at hx
      obtain ⟨pr, _, hpr⟩ := hx
      rw [← hpr]
      simp [writes2d, cfgTruthy]

theorem exceptBindF_ok {ε α β : Type} {x : Except ε α} {f : α → Except ε β}
    {b : β} :
    Except.bind x f = Except.ok b ↔ ∃ a, x = Except.ok a ∧ f a = Except.ok b := by
  cases x <;> simp [Except.bind]

theorem fit_transform_writes {p : Prim σ} {st : Transformations σ}
    {data : Container} {r : Transformations σ × Container}
    (h : fit_transform p st data = Except.ok r) :
    r.1.scalers = pyDictUpdate st.scalers (fitWrites p st.names st.config data) ∧
    r.1.names = st.names := by
  cases hc : st.config with
  | none =>
      simp only [fit_transform, hc, exceptPure_ok] at h
      rw [← h]
      constructor
      · show st.scalers = _
        have hz : fitWrites (σ := σ) p st.names Option.none data = [] := by
          cases data with
          | np a => simp only [fitWrites, broadcastCfg]; exact arrWrites_none p a _ "5"
          | list l =>
              simp only [fitWrites, broadcastCfg]
              apply flatten_all_nil
              intro x hx
              simp only [List.mem_map] at hx
              obtain ⟨pr, _, hpr⟩ := hx
              rw [← hpr]
              exact arrWrites_none p pr.2 _ _
          | dict d =>
              simp only [fitWrites, broadcastCfg]
              apply flatten_all_nil
              intro x hx
              simp only [List.mem_map] at hx
              obtain ⟨pr, _, hpr⟩ := hx
              rw [← hpr]
              exact arrWrites_none p pr.2 _ _
          | other => rfl
        rw [hz]
        simp [pyDictUpdate]
      · rfl
  | some c =>
      simp only [fit_transform, hc] at h
      cases data with
      | other => simp [Bind.bind, Except.bind] at h
      | np a =>
          simp only [Bind.bind, exceptBindF_ok, exceptPure_ok, pure,
            Except.pure, Except.ok.injEq] at h
          obtain ⟨st2, hst2, u, hu, v, hv, h⟩ := h
          have hfw := _fit_transform_writes hv
          rw [← hst2] at hfw
          split at h
          · injection h with h
            subst h
            rw [hfw]
            constructor <;> simp [hc]
          · exact Except.noConfusion h
      | list l =>
          simp only [Bind.bind, exceptBindF_ok, exceptPure_ok, pure,
            Except.pure, Except.ok.injEq] at h
          obtain ⟨st2, hst2, u, hu, v, hv, h⟩ := h
          have hfw := _fit_transform_writes hv
          rw [← hst2] at hfw
          split at h
          · injection h with h
            subst h
            rw [hfw]
            constructor <;> simp [hc]
          · exact Except.noConfusion h
      | dict d =>
          simp only [Bind.bind, exceptBindF_ok, exceptPure_ok, pure,
            Except.pure, Except.ok.injEq] at h
          obtain ⟨st2, hst2, u, hu, v, hv, h⟩ := h
          have hfw := _fit_transform_writes hv
          rw [← hst2] at hfw
          split at h
          · injection h with h
            subst h
            rw [hfw]
            constructor <;> simp [hc]
          · exact Except.noConfusion h

end Transformations

theorem itemsWrites_keys_nodup {σ : Type} (p : Prim σ) (cols : List String)
    (key : String) :
    ∀ (items : List (Nat × PyConfig)) (acc : Sum Table DF)
      (scalers : List (String × ScalerDesc σ)),
      (scalers.map Prod.fst).Nodup →
      ((itemsWrites p cols key items acc scalers).map Prod.fst).Nodup := by
  intro items
  induction items with
  | nil => intro acc scalers h; exact h
  | cons it rest ih =>
      intro acc scalers h
      obtain ⟨idx, tr⟩ := it
      cases tr with
      | str m =>
          simp only [itemsWrites]
          exact ih _ _ (nodup_keys_pyDictInsert h _ _)
      | descr d =>
          cases hm : d.method with
          | none => simp only [itemsWrites, hm]; exact ih _ _ h
          | some m =>
              simp only [itemsWrites, hm]
              exact ih _ _ (nodup_keys_pyDictInsert h _ _)
      | list l => exact h
      | dict l => exact h

theorem mem_enum_spec {α : Type} {l : List α} {i : Nat} {a : α}
    (h : (i, a) ∈ l.enum) : i < l.length ∧ a ∈ l := by
  have h2 := List.mk_mem_enum_iff_get?.mp h
  refine ⟨?_, List.get?_mem h2⟩
  rcases List.get?_eq_some.mp h2 with ⟨hlt, _⟩
  exact hlt

theorem mem_keys_itemsWrites {σ : Type} {p : Prim σ} {cols : List String}
    {key : String} :
    ∀ {items : List (Nat × PyConfig)} {acc : Sum Table DF}
      {scalers : List (String × ScalerDesc σ)} {k : String},
      k ∈ (itemsWrites p cols key items acc scalers).map Prod.fst →
      k ∈ scalers.map Prod.fst ∨
        ∃ i e m, (i, e) ∈ items ∧ entryMethod e = Option.some m ∧
          k = key ++ "_" ++ m ++ "_" ++ Nat.repr i := by
  intro items
  induction items with
  | nil => intro acc scalers k h; exact Or.inl h
  | cons it rest ih =>
      intro acc scalers k h
      obtain ⟨idx, tr⟩ := it
      cases tr with
      | str m =>
          simp only [itemsWrites] at h
          rcases ih h with h2 | ⟨i, e, m2, hmem, hme, hk⟩
          · rcases mem_keys_pyDictInsert h2 with h3 | h3
            · exact Or.inl h3
            · exact Or.inr ⟨idx, PyConfig.str m, m, by simp, rfl, h3⟩
          · exact Or.inr ⟨i, e, m2, List.mem_cons_of_mem _ hmem, hme, hk⟩
      | descr d =>
          cases hm : d.method with
          | none =>
              simp only [itemsWrites, hm] at h
              rcases ih h with h2 | ⟨i, e, m2, hmem, hme, hk⟩
              · exact Or.inl h2
              · exact Or.inr ⟨i, e, m2, List.mem_cons_of_mem _ hmem, hme, hk⟩
          | some m =>
              simp only [itemsWrites, hm] at h
              rcases ih h with h2 | ⟨i, e, m2, hmem, hme, hk⟩
              · rcases mem_keys_pyDictInsert h2 with h3 | h3
                · exact Or.inl h3
                · exact Or.inr ⟨idx, PyConfig.descr d, m, by simp,
                    by simp [entryMethod, hm], h3⟩
              · exact Or.inr ⟨i, e, m2, List.mem_cons_of_mem _ hmem, hme, hk⟩
      | list l => exact Or.inl h
      | dict l => exact Or.inl h

theorem writes2d_keys_nodup {σ : Type} (p : Prim σ) (t : Table)
    (cols : List String) (tr : Option PyConfig) (key : String) :
    ((writes2d p t cols tr key).map Prod.fst).Nodup := by
  unfold writes2d
  split
  · split
    · simp [pyDictInsert]
    · exact itemsWrites_keys_nodup p cols key _ _ [] (by simp)
    · simp [pyDictInsert]
    · simp
  · simp

theorem mem_keys_writes2d {σ : Type} {p : Prim σ} {t : Table}
    {cols : List String} {tr : Option PyConfig} {key k : String}
    (hf : cfgListUndFree tr)
    (h : k ∈ (writes2d p t cols tr key).map Prod.fst) :
    k = key ∨ ∃ m i, undFree m ∧ k = key ++ "_" ++ m ++ "_" ++ Nat.repr i := by
  unfold writes2d at h
  split at h
  · split at h
    · simp [pyDictInsert] at h
      exact Or.inl h
    · rcases mem_keys_itemsWrites h with h2 | ⟨i, e, m, hmem, hme, hk⟩
      · simp at h2
      · refine Or.inr ⟨m, i, ?_, hk⟩
        exact hf e (mem_enum_spec hmem).2 m hme
    · simp [pyDictInsert] at h
      exact Or.inl h
    · simp at h
  · simp at h

theorem sJoin₂ (a b : String) : sJoin [a, b] = a ++ "_" ++ b := rfl

theorem getElem_append_len {α : Type} (P : List α) (a : α) :
    (P ++ [a])[P.length]? = Option.some a := by
  rw [List.getElem?_append_right (Nat.le_refl _)]
  simp

/-- Two composite keys whose underscore-free part lists differ at a common
position are distinct, whatever underscore-free tails follow. -/
theorem sJoin_parts_ne {P Q tp tq : List String} (j : Nat)
    (hP : P ≠ []) (hQ : Q ≠ [])
    (hfP : ∀ s ∈ P, undFree s) (hfQ : ∀ s ∈ Q, undFree s)
    (hftp : ∀ s ∈ tp, undFree s) (hftq : ∀ s ∈ tq, undFree s)
    (hj1 : j < P.length) (hj2 : j < Q.length) (hne : P[j]? ≠ Q[j]?) :
    sJoin (P ++ tp) ≠ sJoin (Q ++ tq) := by
  intro h
  have heq := sJoin_inj (by simp [hP]) (by simp [hQ])
    (fun s hs => (List.mem_append.mp hs).elim (hfP s) (hftp s))
    (fun s hs => (List.mem_append.mp hs).elim (hfQ s) (hftq s)) h
  exact append_ne_of_ne_at j hj1 hj2 hne heq

theorem mem_keys_writes2d_parts {σ : Type} {p : Prim σ} {t : Table}
    {cols : List String} {tr : Option PyConfig} {P : List String} {k : String}
    (hP : P ≠ []) (hf : cfgListUndFree tr)
    (h : k ∈ (writes2d p t cols tr (sJoin P)).map Prod.fst) :
    ∃ tail, k = sJoin (P ++ tail) ∧ ∀ s ∈ tail, undFree s := by
  rcases mem_keys_writes2d hf h with h1 | ⟨m, i, hm, h1⟩
  · exact ⟨[], by simp [h1], by simp⟩
  · refine ⟨[m, Nat.repr i], ?_, ?_⟩
    · rw [show P ++ [m, Nat.repr i] = (P ++ [m]) ++ [Nat.repr i] by simp,
        sJoin_snoc _ _ (by simp), sJoin_snoc _ _ hP, h1]
    · intro s hs
      rcases List.mem_cons.mp hs with rfl | hs
      · exact hm
      rcases List.mem_cons.mp hs with rfl | hs
      · exact Nat_repr_no_underscore i
      · cases hs

theorem mem_keys_arrWrites {σ : Type} {p : Prim σ} {a : Arr}
    {cols : List String} {tr : Option PyConfig} {P : List String} {k : String}
    (hP : P ≠ []) (hf : cfgListUndFree tr)
    (h : k ∈ (arrWrites p a cols tr (sJoin P)).map Prod.fst) :
    ∃ tail, k = sJoin (P ++ tail) ∧ ∀ s ∈ tail, undFree s := by
  cases a with
  | d2 t => exact mem_keys_writes2d_parts hP hf h
  | d3 slices =>
      simp only [arrWrites, List.map_flatten, List.map_map, List.mem_flatten,
        List.mem_map, Function.comp] at h
      obtain ⟨l, ⟨pr, hpr, hl⟩, hk⟩ := h
      rw [← hl] at hk
      have hbase : sJoin P ++ "_" ++ Nat.repr pr.1 =
          sJoin (P ++ [Nat.repr pr.1]) := (sJoin_snoc P _ hP).symm
      rw [hbase] at hk
      obtain ⟨tail, hkeq, hta⟩ := mem_keys_writes2d_parts (by simp) hf hk
      refine ⟨[Nat.repr pr.1] ++ tail, ?_, ?_⟩
      · rw [hkeq, List.append_assoc]
      · intro s hs
        rcases List.mem_append.mp hs with hs | hs
        · rcases List.mem_cons.mp hs with rfl | hs
          · exact Nat_repr_no_underscore pr.1
          · cases hs
        · exact hta s hs

theorem arrWrites_keys_nodup {σ : Type} {p : Prim σ} {a : Arr}
    {cols : List String} {tr : Option PyConfig} {P : List String}
    (hP : P ≠ []) (hfP : ∀ s ∈ P, undFree s) (hf : cfgListUndFree tr) :
    ((arrWrites p a cols tr (sJoin P)).map Prod.fst).Nodup := by
  cases a with
  | d2 t => exact writes2d_keys_nodup p t cols tr (sJoin P)
  | d3 slices =>
      simp only [arrWrites, List.map_flatten, List.map_map]
      rw [List.nodup_flatten]
      constructor
      · intro l hl
        simp only [List.mem_map, Function.comp] at hl
        obtain ⟨pr, _, hl⟩ := hl
        rw [← hl]
        exact writes2d_keys_nodup p pr.2 cols tr _
      · rw [List.pairwise_map]
        have hne := (List.pairwise_map.mp
          (List.nodup_enum_map_fst slices)).imp (fun hab => hab)
        refine hne.imp ?_
        intro x y hxy
        rw [Function.comp, Function.comp, List.disjoint_left]
        intro k hk1 hk2
        have hbx : sJoin P ++ "_" ++ Nat.repr x.1 =
            sJoin (P ++ [Nat.repr x.1]) := (sJoin_snoc P _ hP).symm
        have hby : sJoin P ++ "_" ++ Nat.repr y.1 =
            sJoin (P ++ [Nat.repr y.1]) := (sJoin_snoc P _ hP).symm
        rw [hbx] at hk1
        rw [hby] at hk2
        obtain ⟨tx, hkx, htx⟩ := mem_keys_writes2d_parts (by simp) hf hk1
        obtain ⟨ty, hky, hty⟩ := mem_keys_writes2d_parts (by simp) hf hk2
        have hfx : ∀ s ∈ P ++ [Nat.repr x.1], undFree s := by
          intro s hs
          rcases List.mem_append.mp hs with hs | hs
          · exact hfP s hs
          · rcases List.mem_cons.mp hs with rfl | hs
            · exact Nat_repr_no_underscore x.1
            · cases hs
        have hfy : ∀ s ∈ P ++ [Nat.repr y.1], undFree s := by
          intro s hs
          rcases List.mem_append.mp hs with hs | hs
          · exact hfP s hs
          · rcases List.mem_cons.mp hs with rfl | hs
            · exact Nat_repr_no_underscore y.1
            · cases hs
        refine sJoin_parts_ne P.length (by simp) (by simp) hfx hfy htx hty
          (by simp) (by simp) ?_ (by rw [← hkx, ← hky])
        rw [getElem_append_len P _, getElem_append_len P _]
        intro hc
        exact hxy (Nat_repr_inj (Option.some.inj hc))

theorem undFree_five : undFree "5" := by
  unfold undFree
  decide

theorem fitWrites_keys_nodup {σ : Type} {p : Prim σ} {names : Names}
    {cfg : Option PyConfig} {data : Container}
    (hyg : fitHyg cfg data) :
    ((fitWrites p names cfg data).map Prod.fst).Nodup := by
  cases data with
  | other => simp [fitWrites]
  | np a =>
      simp only [fitWrites]
      rw [show ("5" : String) = sJoin ["5"] from rfl]
      refine arrWrites_keys_nodup (by simp) ?_ hyg
      intro s hs
      rcases List.mem_cons.mp hs with rfl | hs
      · exact undFree_five
      · cases hs
  | list l =>
      simp only [fitWrites, List.map_flatten, List.map_map]
      rw [List.nodup_flatten]
      constructor
      · intro bl hbl
        simp only [List.mem_map, Function.comp] at hbl
        obtain ⟨pr, hpr, hbl⟩ := hbl
        rw [← hbl]
        rw [show ("5" ++ "_" ++ Nat.repr pr.1 : String) =
          sJoin ["5", Nat.repr pr.1] from rfl]
        refine arrWrites_keys_nodup (by simp) ?_
          (hyg pr.1 (mem_enum_spec hpr).1)
        intro s hs
        rcases List.mem_cons.mp hs with rfl | hs
        · exact undFree_five
        rcases List.mem_cons.mp hs with rfl | hs
        · exact Nat_repr_no_underscore pr.1
        · cases hs
      · rw [List.pairwise_map]
        have hne : l.enum.Pairwise (fun a b => a.1 ≠ b.1) :=
          List.pairwise_map.mp (List.nodup_enum_map_fst l)
        refine hne.imp_of_mem ?_
        intro x y hx hy hxy
        rw [Function.comp, Function.comp, List.disjoint_left]
        intro k hk1 hk2
        rw [show ("5" ++ "_" ++ Nat.repr x.1 : String) =
          sJoin ["5", Nat.repr x.1] from rfl] at hk1
        rw [show ("5" ++ "_" ++ Nat.repr y.1 : String) =
          sJoin ["5", Nat.repr y.1] from rfl] at hk2
        obtain ⟨tx, hkx, htx⟩ := mem_keys_arrWrites (by simp)
          (hyg x.1 (mem_enum_spec hx).1) hk1
        obtain ⟨ty, hky, hty⟩ := mem_keys_arrWrites (by simp)
          (hyg y.1 (mem_enum_spec hy).1) hk2
        have hfx : ∀ s ∈ ["5", Nat.repr x.1], undFree s := by
          intro s hs
          rcases List.mem_cons.mp hs with rfl | hs
          · exact undFree_five
          rcases List.mem_cons.mp hs with rfl | hs
          · exact Nat_repr_no_underscore x.1
          · cases hs
        have hfy : ∀ s ∈ ["5", Nat.repr y.1], undFree s := by
          intro s hs
          rcases List.mem_cons.mp hs with rfl | hs
          · exact undFree_five
          rcases List.mem_cons.mp hs with rfl | hs
          · exact Nat_repr_no_underscore y.1
          · cases hs
        refine sJoin_parts_ne 1 (by simp) (by simp) hfx hfy htx hty
          (by simp) (by simp) ?_ (by rw [← hkx, ← hky])
        intro hc
        exact hxy (Nat_repr_inj (Option.some.inj hc))
  | dict d =>
      obtain ⟨hnd, hud, hcfg⟩ := hyg
      simp only [fitWrites, List.map_flatten, List.map_map]
      rw [List.nodup_flatten]
      constructor
      · intro bl hbl
        simp only [List.mem_map, Function.comp] at hbl
        obtain ⟨pr, hpr, hbl⟩ := hbl
        rw [← hbl]
        rw [show ("5" ++ "_" ++ pr.1 : String) = sJoin ["5", pr.1] from rfl]
        refine arrWrites_keys_nodup (by simp) ?_
          (hcfg pr.1 (List.mem_map.mpr ⟨pr, hpr, rfl⟩))
        intro s hs
        rcases List.mem_cons.mp hs with rfl | hs
        · exact undFree_five
        rcases List.mem_cons.mp hs with rfl | hs
        · exact hud pr.1 (List.mem_map.mpr ⟨pr, hpr, rfl⟩)
        · cases hs
      · rw [List.pairwise_map]
        have hne : d.Pairwise (fun a b => a.1 ≠ b.1) :=
          List.pairwise_map.mp hnd
        refine hne.imp_of_mem ?_
        intro x y hx hy hxy
        rw [Function.comp, Function.comp, List.disjoint_left]
        intro k hk1 hk2
        rw [show ("5" ++ "_" ++ x.1 : String) = sJoin ["5", x.1] from rfl] at hk1
        rw [show ("5" ++ "_" ++ y.1 : String) = sJoin ["5", y.1] from rfl] at hk2
        obtain ⟨tx, hkx, htx⟩ := mem_keys_arrWrites (by simp)
          (hcfg x.1 (List.mem_map.mpr ⟨x, hx, rfl⟩)) hk1
        obtain ⟨ty, hky, hty⟩ := mem_keys_arrWrites (by simp)
          (hcfg y.1 (List.mem_map.mpr ⟨y, hy, rfl⟩)) hk2
        have hfx : ∀ s ∈ ["5", x.1], undFree s := by
          intro s hs
          rcases List.mem_cons.mp hs with rfl | hs
          · exact undFree_five
          rcases List.mem_cons.mp hs with rfl | hs
          · exact hud x.1 (List.mem_map.mpr ⟨x, hx, rfl⟩)
          · cases hs
        have hfy : ∀ s ∈ ["5", y.1], undFree s := by
          intro s hs
          rcases List.mem_cons.mp hs with rfl | hs
          · exact undFree_five
          rcases List.mem_cons.mp hs with rfl | hs
          · exact hud y.1 (List.mem_map.mpr ⟨y, hy, rfl⟩)
          · cases hs
        refine sJoin_parts_ne 1 (by simp) (by simp) hfx hfy htx hty
          (by simp) (by simp) ?_ (by rw [← hkx, ← hky])
        intro hc
        exact hxy (Option.some.inj hc)

/-- Counterexample to C3 as stated: two different sources with identical
feature names and identical method lists build the same composite key
`5_x_0`, so the second write silently overwrites the first — the final
registry holds one entry, carrying the scaler fitted on source `x_0` only. -/
theorem c3_counterexample :
    (fitWrites recallPrim namesC3 (Option.some (PyConfig.str "minmax"))
        dataC3).map Prod.fst = ["5_x_0", "5_x_0"] ∧
      ¬ ((fitWrites recallPrim namesC3 (Option.some (PyConfig.str "minmax"))
        dataC3).map Prod.fst).Nodup ∧
      (Transformations.fit_transform recallPrim stC3 dataC3).toOption.isSome
        = true ∧
      ((Transformations.fit_transform recallPrim stC3 dataC3).toOption.getD
          (stC3, Container.other)).1.scalers.map
        (fun pr => (pr.1, pr.2.scaler)) = [("5_x_0", [[5]])] := by
  refine ⟨rfl, ?_, rfl, rfl⟩
  have he : (fitWrites recallPrim namesC3 (Option.some (PyConfig.str "minmax"))
      dataC3).map Prod.fst = ["5_x_0", "5_x_0"] := rfl
  rw [he]
  decide

/-- Claim C3 (amended): provided the hygiene proviso `fitHyg` holds — dict
source names pairwise distinct and underscore-free, and every method name a
list spec splices into a composite key underscore-free — all registry keys
written by one successful `fit_transform` call are pairwise distinct, and
starting from an empty registry the final registry is exactly the list of
written entries, none overwritten.  Without the proviso the composite keys
can collide across sources (`c3_counterexample`). -/
theorem c3_fit_keys_unique {σ : Type} {p : Prim σ} {st : Transformations σ}
    {data : Container} {r : Transformations σ × Container}
    (hempty : st.scalers = [])
    (hyg : fitHyg st.config data)
    (h : Transformations.fit_transform p st data = Except.ok r) :
    r.1.scalers = fitWrites p st.names st.config data ∧
      ((fitWrites p st.names st.config data).map Prod.fst).Nodup := by
  have hw := Transformations.fit_transform_writes h
  have hnd : ((fitWrites p st.names st.config data).map Prod.fst).Nodup :=
    fitWrites_keys_nodup hyg
  refine ⟨?_, hnd⟩
  rw [hw.1, hempty, pyDictUpdate_fresh _ _ (fun k hk => by simp) hnd]
  simp

/-- Witness for C3 at a concrete numpy input. -/
theorem c3_fit_keys_unique_witness :
    ((Transformations.fit_transform idPrim stMinmax
          (Container.np (Arr.d2 [[1, 2]]))).toOption.getD
        (stMinmax, Container.other)).1.scalers =
      fitWrites idPrim stMinmax.names stMinmax.config
        (Container.np (Arr.d2 [[1, 2]])) ∧
      ((fitWrites idPrim stMinmax.names stMinmax.config
        (Container.np (Arr.d2 [[1, 2]]))).map Prod.fst).Nodup :=
  c3_fit_keys_unique rfl trivial rfl

namespace Transformations

variable {σ : Type}

theorem fit_transform_tag {σ : Type} {p : Prim σ} {st : Transformations σ}
    {data : Container} {r : Transformations σ × Container}
    (h : fit_transform p st data = Except.ok r) :
    r.2.tag = data.tag := by
  cases hc : st.config with
  | none =>
      simp only [fit_transform, hc, exceptPure_ok] at h
      rw [← h]
  | some c =>
      simp only [fit_transform, hc] at h
      cases data with
      | other => simp [Bind.bind, Except.bind] at h
      | np a =>
          simp only [Bind.bind, exceptBindF_ok, exceptPure_ok, pure,
            Except.pure, Except.ok.injEq] at h
          obtain ⟨st2, hst2, u, hu, v, hv, h⟩ := h
          split at h
          · injection h with h
            subst h
            rename_i htag
            exact eq_of_beq htag
          · exact Except.noConfusion h
      | list l =>
          simp only [Bind.bind, exceptBindF_ok, exceptPure_ok, pure,
            Except.pure, Except.ok.injEq] at h
          obtain ⟨st2, hst2, u, hu, v, hv, h⟩ := h
          split at h
          · injection h with h
            subst h
            rename_i htag
            exact eq_of_beq htag
          · exact Except.noConfusion h
      | dict d =>
          simp only [Bind.bind, exceptBindF_ok, exceptPure_ok, pure,
            Except.pure, Except.ok.injEq] at h
          obtain ⟨st2, hst2, u, hu, v, hv, h⟩ := h
          split at h
          · injection h with h
            subst h
            rename_i htag
            exact eq_of_beq htag
          · exact Except.noConfusion h

theorem _inverse_transform_2d_str_arr {σ : Type} {p : Prim σ}
    {st : Transformations σ} {t : Table} {cols : List String} {key m : String}
    {v : Transformations σ × PdVal}
    (h : _inverse_transform_2d p st t cols key
      (Option.some (PyConfig.str m)) = Except.ok v) :
    ∃ tt, v.2 = PdVal.arr tt := by
  simp only [_inverse_transform_2d] at h
  cases hl : st.scalers.lookup key with
  | none => rw [hl] at h; simp [Bind.bind, Except.bind] at h
  | some entry =>
      rw [hl] at h
      simp only [Bind.bind, Except.bind] at h
      cases hcs : conform_shape p.rnd (PdVal.frame (DF.mk cols t)) entry.shape
          Option.none with
      | error e => rw [hcs] at h; simp at h
      | ok cres =>
          rw [hcs] at h
          simp only [] at h
          cases hre : npReshape (colSliceFrom (p.invScaler entry.scaler
              cres.1.val) cres.2) (DF.mk cols t).shape with
          | error e => rw [hre] at h; simp at h
          | ok reshaped =>
              rw [hre] at h
              simp only [exceptPure_ok] at h
              rw [← h]
              exact ⟨reshaped, rfl⟩

theorem invTransformOne_str_np {σ : Type} {p : Prim σ}
    {st : Transformations σ} {a : Arr} {cols : List String} {key m : String}
    {r : Transformations σ × ArrOut}
    (h : invTransformOne p st a cols (Option.some (PyConfig.str m)) key =
      Except.ok r) :
    r.2.isNp = true := by
  cases a with
  | d3 slices =>
      simp only [invTransformOne, Bind.bind, Except.bind] at h
      cases hr : inv3dLoop p st cols (Option.some (PyConfig.str m)) key
          slices 0 [] with
      | error e => rw [hr] at h; simp at h
      | ok res =>
          rw [hr] at h
          simp only [exceptPure_ok] at h
          rw [← h]
          rfl
  | d2 t =>
      simp only [invTransformOne, Bind.bind, Except.bind] at h
      cases hr : _inverse_transform_2d p st t cols key
          (Option.some (PyConfig.str m)) with
      | error e => rw [hr] at h; simp at h
      | ok res =>
          rw [hr] at h
          simp only [exceptPure_ok] at h
          obtain ⟨tt, htt⟩ := _inverse_transform_2d_str_arr hr
          rw [← h, htt]
          rfl

theorem _inverse_transform_np_str {σ : Type} {p : Prim σ}
    {st : Transformations σ} {a : Arr} {key m : String}
    {res : Transformations σ × ContainerOut}
    (hcfg : st.config = Option.some (PyConfig.str m))
    (h : _inverse_transform p st (Container.np a) key = Except.ok res) :
    res.2.pyType = "ndarray" := by
  unfold _inverse_transform at h
  rw [transformation_broadcastCfg, hcfg] at h
  have hbc : broadcastCfg (Option.some (PyConfig.str m)) (Container.np a) =
      Option.some (PyConfig.str m) := rfl
  rw [hbc] at h
  cases hn : getFlag "is_numpy_" st.is_numpy_ with
  | error e => rw [hn] at h; simp [Bind.bind, Except.bind, Functor.map, Except.map] at h
  | ok bNp =>
      rw [hn] at h
      simp only [Bind.bind, Except.bind, Functor.map, Except.map] at h
      by_cases hb : bNp = true
      · rw [if_pos hb] at h
        try simp only [Bind.bind, Except.bind, Functor.map, Except.map] at h
        cases hc : namesAsCols st.names with
        | error e => rw [hc] at h; simp [Bind.bind, Except.bind, Functor.map, Except.map] at h
        | ok cols =>
            rw [hc] at h
            try simp only [Bind.bind, Except.bind, Functor.map, Except.map] at h
            cases hr : invTransformOne p st a cols
                (Option.some (PyConfig.str m)) key with
            | error e => rw [hr] at h; simp [Bind.bind, Except.bind, Functor.map, Except.map] at h
            | ok r =>
                rw [hr] at h
                simp only [exceptPure_ok] at h
                have hnp := invTransformOne_str_np hr
                rw [← h]
                cases hrr : r.2 with
                | d2a t => rfl
                | d3 s => rfl
                | d2f df => rw [hrr] at hnp; simp [ArrOut.isNp] at hnp
      · rw [if_neg hb] at h
        cases hl : getFlag "is_list_" st.is_list_ with
        | error e => rw [hl] at h; simp [Bind.bind, Except.bind, Functor.map, Except.map] at h
        | ok bL =>
            rw [hl] at h
            try simp only [Bind.bind, Except.bind, Functor.map, Except.map] at h
            by_cases hbl : bL = true
            · rw [if_pos hbl] at h
              simp [Bind.bind, Except.bind, Functor.map, Except.map] at h
            · rw [if_neg hbl] at h
              cases hd : getFlag "is_dict_" st.is_dict_ with
              | error e => rw [hd] at h; simp [Bind.bind, Except.bind, Functor.map, Except.map] at h
              | ok bD =>
                  rw [hd] at h
                  try simp only [Bind.bind, Except.bind, Functor.map, Except.map] at h
                  by_cases hbd : bD = true
                  · rw [if_pos hbd] at h
                    simp [Bind.bind, Except.bind, Functor.map, Except.map] at h
                  · rw [if_neg hbd] at h
                    simp only [exceptPure_ok] at h
                    rw [← h]
                    cases a <;> rfl

theorem _inverse_transform_list_pyType {σ : Type} {p : Prim σ}
    {st : Transformations σ} {l : List Arr} {key : String}
    {res : Transformations σ × ContainerOut}
    (h : _inverse_transform p st (Container.list l) key = Except.ok res) :
    res.2.pyType = "list" := by
  unfold _inverse_transform at h
  cases hn : getFlag "is_numpy_" st.is_numpy_ with
  | error e => rw [hn] at h; simp [Bind.bind, Except.bind, Functor.map, Except.map] at h
  | ok bNp =>
      rw [hn] at h
      simp only [Bind.bind, Except.bind, Functor.map, Except.map] at h
      by_cases hb : bNp = true
      · rw [if_pos hb] at h
        simp [Bind.bind, Except.bind, Functor.map, Except.map] at h
      · rw [if_neg hb] at h
        cases hl : getFlag "is_list_" st.is_list_ with
        | error e => rw [hl] at h; simp [Bind.bind, Except.bind, Functor.map, Except.map] at h
        | ok bL =>
            rw [hl] at h
            try simp only [Bind.bind, Except.bind, Functor.map, Except.map] at h
            by_cases hbl : bL = true
            · rw [if_pos hbl] at h
              try simp only [Bind.bind, Except.bind, Functor.map, Except.map] at h
              cases hr : invListLoop p st
                  (st.transformation (Container.list l)) key l 0 [] with
              | error e => rw [hr] at h; simp [Bind.bind, Except.bind, Functor.map, Except.map] at h
              | ok r =>
                  rw [hr] at h
                  simp only [exceptPure_ok] at h
                  rw [← h]
                  rfl
            · rw [if_neg hbl] at h
              cases hd : getFlag "is_dict_" st.is_dict_ with
              | error e => rw [hd] at h; simp [Bind.bind, Except.bind, Functor.map, Except.map] at h
              | ok bD =>
                  rw [hd] at h
                  try simp only [Bind.bind, Except.bind, Functor.map, Except.map] at h
                  by_cases hbd : bD = true
                  · rw [if_pos hbd] at h
                    simp [Bind.bind, Except.bind, Functor.map, Except.map] at h
                  · rw [if_neg hbd] at h
                    simp only [exceptPure_ok] at h
                    rw [← h]
                    rfl

theorem _inverse_transform_dict_pyType {σ : Type} {p : Prim σ}
    {st : Transformations σ} {d : List (String × Arr)} {key : String}
    {res : Transformations σ × ContainerOut}
    (h : _inverse_transform p st (Container.dict d) key = Except.ok res) :
    res.2.pyType = "dict" := by
  unfold _inverse_transform at h
  cases hn : getFlag "is_numpy_" st.is_numpy_ with
  | error e => rw [hn] at h; simp [Bind.bind, Except.bind, Functor.map, Except.map] at h
  | ok bNp =>
      rw [hn] at h
      simp only [Bind.bind, Except.bind, Functor.map, Except.map] at h
      by_cases hb : bNp = true
      · rw [if_pos hb] at h
        simp [Bind.bind, Except.bind, Functor.map, Except.map] at h
      · rw [if_neg hb] at h
        cases hl : getFlag "is_list_" st.is_list_ with
        | error e => rw [hl] at h; simp [Bind.bind, Except.bind, Functor.map, Except.map] at h
        | ok bL =>
            rw [hl] at h
            try simp only [Bind.bind, Except.bind, Functor.map, Except.map] at h
            by_cases hbl : bL = true
            · rw [if_pos hbl] at h
              simp [Bind.bind, Except.bind, Functor.map, Except.map] at h
            · rw [if_neg hbl] at h
              cases hd : getFlag "is_dict_" st.is_dict_ with
              | error e => rw [hd] at h; simp [Bind.bind, Except.bind, Functor.map, Except.map] at h
              | ok bD =>
                  rw [hd] at h
                  try simp only [Bind.bind, Except.bind, Functor.map, Except.map] at h
                  by_cases hbd : bD = true
                  · rw [if_pos hbd] at h
                    try simp only [Bind.bind, Except.bind, Functor.map, Except.map] at h
                    cases hr : invDictLoop p st
                        (st.transformation (Container.dict d)) key d [] with
                    | error e => rw [hr] at h; simp [Bind.bind, Except.bind, Functor.map, Except.map] at h
                    | ok r =>
                        rw [hr] at h
                        simp only [exceptPure_ok] at h
                        rw [← h]
                        rfl
                  · rw [if_neg hbd] at h
                    simp only [exceptPure_ok] at h
                    rw [← h]
                    rfl

end Transformations

/-- Counterexample to C4 as stated: fitting a numpy 2-D input with the list
spec `['minmax']` succeeds and keeps the variant, but the corresponding
inverse call returns a pandas DataFrame where an ndarray came in — the
inverse output's Python type differs from the input's variant. -/
theorem c4_counterexample :
    (Transformations.fit_transform shiftPrim stC4 dataC4).toOption.isSome
      = true ∧
    ((Transformations.fit_transform shiftPrim stC4 dataC4).toOption.getD
        (stC4, Container.other)).2.tag = "ndarray" ∧
    (Transformations.inverse_transform shiftPrim
        ((Transformations.fit_transform shiftPrim stC4 dataC4).toOption.getD
          (stC4, Container.other)).1
        ((Transformations.fit_transform shiftPrim stC4 dataC4).toOption.getD
          (stC4, Container.other)).2).toOption.isSome = true ∧
    ((Transformations.inverse_transform shiftPrim
        ((Transformations.fit_transform shiftPrim stC4 dataC4).toOption.getD
          (stC4, Container.other)).1
        ((Transformations.fit_transform shiftPrim stC4 dataC4).toOption.getD
          (stC4, Container.other)).2).toOption.getD
        (stC4, ContainerOut.other)).2.pyType = "DataFrame" ∧
    dataC4.tag = "ndarray" :=
  ⟨rfl, rfl, rfl, rfl, rfl⟩

/-- Claim C4 (amended): a successful `fit_transform` always returns a
container of the input's variant (the final type assertion enforces it), and
a successful `inverse_transform` on a list or dict input again returns a
Python list or dict; but a numpy input survives inversion as an ndarray only
under a single-method (string) spec — a list or descriptor spec makes the
inverse return a pandas DataFrame in place of the ndarray
(`c4_counterexample`). -/
theorem c4_variant {σ : Type} :
    (∀ (p : Prim σ) (st : Transformations σ) (data : Container)
       (r : Transformations σ × Container),
        Transformations.fit_transform p st data = Except.ok r →
        r.2.tag = data.tag) ∧
    (∀ (p : Prim σ) (st : Transformations σ) (l : List Arr)
       (r : Transformations σ × ContainerOut),
        Transformations.inverse_transform p st (Container.list l) =
          Except.ok r →
        r.2.pyType = "list") ∧
    (∀ (p : Prim σ) (st : Transformations σ) (d : List (String × Arr))
       (r : Transformations σ × ContainerOut),
        Transformations.inverse_transform p st (Container.dict d) =
          Except.ok r →
        r.2.pyType = "dict") ∧
    (∀ (p : Prim σ) (st : Transformations σ) (a : Arr) (m : String)
       (r : Transformations σ × ContainerOut),
        st.config = Option.some (PyConfig.str m) →
        Transformations.inverse_transform p st (Container.np a) =
          Except.ok r →
        r.2.pyType = "ndarray") :=
  ⟨fun p st data r h => Transformations.fit_transform_tag h,
   fun p st l r h => Transformations._inverse_transform_list_pyType h,
   fun p st d r h => Transformations._inverse_transform_dict_pyType h,
   fun p st a m r hc h => Transformations._inverse_transform_np_str hc h⟩

/-- Witness for C4: concrete successful forward and inverse calls of each
container variant. -/
theorem c4_variant_witness :
    ((Transformations.fit_transform idPrim stMinmax
          (Container.np (Arr.d2 [[1, 2]]))).toOption.getD
        (stMinmax, Container.other)).2.tag =
      (Container.np (Arr.d2 [[1, 2]])).tag ∧
    (ContainerOut.list [ArrOut.d2a [[(1 : ℚ)]]]).pyType = "list" ∧
    (ContainerOut.dict [("x", ArrOut.d2a [[(1 : ℚ)]])]).pyType = "dict" ∧
    (ContainerOut.np (ArrOut.d2a [[(1 : ℚ)]])).pyType = "ndarray" :=
  ⟨c4_variant.1 idPrim stMinmax (Container.np (Arr.d2 [[1, 2]])) _ rfl,
   c4_variant.2.1 idPrim stC4flags [Arr.d2 [[1]]]
     (stC4flags, ContainerOut.list [ArrOut.d2a [[1]]]) rfl,
   c4_variant.2.2.1 idPrim stC4flags [("x", Arr.d2 [[1]])]
     (stC4flags, ContainerOut.dict [("x", ArrOut.d2a [[1]])]) rfl,
   c4_variant.2.2.2 idPrim stFitted (Arr.d2 [[1]]) "minmax"
     (stFitted, ContainerOut.np (ArrOut.d2a [[1]])) rfl rfl⟩

theorem flatten_length_rect {c : Nat} :
    ∀ {t : Table}, rectTable c t → t.flatten.length = t.length * c
  | [], _ => by simp
  | r :: rest, h => by
      have h1 : r.length = c := h r (by simp)
      have h2 : rectTable c rest := fun x hx => h x (by simp [hx])
      simp only [List.flatten_cons, List.length_append, List.length_cons,
        flatten_length_rect h2, h1]
      ring

theorem chunkRowsFuel_rect {c : Nat} (hc : c ≠ 0) :
    ∀ (t : Table) (fuel : Nat), rectTable c t →
      t.flatten.length ≤ fuel →
      chunkRowsFuel c fuel t.flatten = t
  | [], fuel, _, _ => by cases fuel <;> rfl
  | r :: rest, fuel, h, hfuel => by
      have h1 : r.length = c := h r (by simp)
      have hr : r ≠ [] := by
        intro hre
        rw [hre] at h1
        exact hc h1.symm
      obtain ⟨x, r2, rfl⟩ := List.exists_cons_of_ne_nil hr
      have h2 : rectTable c rest := fun y hy => h y (by simp [hy])
      simp only [List.flatten_cons, List.length_append,
        flatten_length_rect h2] at hfuel
      cases fuel with
      | zero =>
          exfalso
          simp at hfuel
      | succ f =>
          show chunkRowsFuel c (f + 1) ((x :: r2) ++ rest.flatten) = _
          rw [List.cons_append]
          simp only [chunkRowsFuel]
          rw [if_neg hc]
          rw [← List.cons_append]
          have htake : ((x :: r2) ++ rest.flatten).take c = x :: r2 := by
            rw [← h1, List.take_left]
          have hdrop : ((x :: r2) ++ rest.flatten).drop c = rest.flatten := by
            rw [← h1, List.drop_left]
          rw [htake, hdrop]
          rw [chunkRowsFuel_rect hc rest f h2
            (by rw [flatten_length_rect h2]; omega)]

theorem chunkRows_flatten_rect {c : Nat} (hc : c ≠ 0) {t : Table}
    (h : rectTable c t) : chunkRows c t.flatten = t :=
  chunkRowsFuel_rect hc t t.flatten.length h (Nat.le_refl _)

theorem lookup_mem_nodup {α : Type} :
    ∀ {ws : List (String × α)} {k : String} {v : α},
      (ws.map Prod.fst).Nodup → (k, v) ∈ ws → ws.lookup k = Option.some v
  | [], _, _, _, hm => by simp at hm
  | w :: ws, k, v, hnd, hm => by
      simp only [List.map_cons, List.nodup_cons] at hnd
      rcases List.mem_cons.mp hm with h | h
      · rw [← h]
        exact lookup_cons_eq (k, v) ws k (by simp)
      · have hk : k ≠ w.1 := by
          intro he
          exact hnd.1 (he ▸ List.mem_map.mpr ⟨(k, v), h, rfl⟩)
        rw [lookup_cons_ne w ws k (by simp [hk])]
        exact lookup_mem_nodup hnd.2 h

theorem lookup_map_const {α β : Type} (c : β) :
    ∀ (d : List (String × α)) (k : String), k ∈ d.map Prod.fst →
      (d.map (fun pr => (pr.1, c))).lookup k = Option.some c
  | [], _, hm => by simp at hm
  | p :: d, k, hm => by
      by_cases he : (k == p.1) = true
      · exact lookup_cons_eq (p.1, c) _ k he
      · rw [List.map_cons, lookup_cons_ne (p.1, c) _ k (by simpa using he)]
        refine lookup_map_const c d k ?_
        simp only [List.map_cons, List.mem_cons] at hm
        rcases hm with hm | hm
        · exact absurd (by simp [hm]) he
        · exact hm

namespace Transformations

variable {σ : Type}

theorem _transform_2d_str {σ : Type} (p : Prim σ) (st : Transformations σ)
    (t : Table) (cols : List String) (k : String) {m : String} (hm : m ≠ "") :
    _transform_2d p st t cols (Option.some (PyConfig.str m)) k =
      Except.ok ({st with scalers :=
          (pyDictUpdate st.scalers [(k, trD p cols m t)])},
        tr2 p cols m t) := by
  have hb : (m == "") = false := by simpa using hm
  simp [_transform_2d, cfgTruthy, hb, pyDictInsert, pure, Except.pure,
    tr2, trD]

theorem fit3dLoop_str {σ : Type} (p : Prim σ) (cols : List String)
    (k : String) {m : String} (hm : m ≠ "") :
    ∀ (slices : List Table) (ts : Nat) (acc : List Table)
      (st : Transformations σ),
      ∃ sc, fit3dLoop p st cols (Option.some (PyConfig.str m)) k slices ts acc
        = Except.ok ({st with scalers := sc},
            acc ++ slices.map (tr2 p cols m))
  | [], ts, acc, st => ⟨st.scalers, by simp [fit3dLoop]⟩
  | s :: rest, ts, acc, st => by
      obtain ⟨sc, hsc⟩ := fit3dLoop_str p cols k hm rest (ts + 1)
        (acc ++ [tr2 p cols m s])
        ({st with scalers :=
          (pyDictUpdate st.scalers [(k ++ "_" ++ Nat.repr ts, trD p cols m s)])})
      refine ⟨sc, ?_⟩
      simp only [fit3dLoop, Bind.bind, Except.bind,
        _transform_2d_str p st s cols (k ++ "_" ++ Nat.repr ts) hm]
      rw [hsc]
      simp

theorem fitTransformOne_str {σ : Type} (p : Prim σ) (st : Transformations σ)
    (a : Arr) (cols : List String) (k : String) {m : String} (hm : m ≠ "") :
    ∃ sc, fitTransformOne p st a cols (Option.some (PyConfig.str m)) k =
      Except.ok ({st with scalers := sc}, trArr p cols m a) := by
  cases a with
  | d2 t =>
      refine ⟨pyDictUpdate st.scalers [(k, trD p cols m t)], ?_⟩
      simp [fitTransformOne, Bind.bind, Except.bind,
        _transform_2d_str p st t cols k hm, pure, Except.pure, trArr]
  | d3 slices =>
      obtain ⟨sc, hsc⟩ := fit3dLoop_str p cols k hm slices 0 [] st
      refine ⟨sc, ?_⟩
      simp [fitTransformOne, Bind.bind, Except.bind, hsc, pure, Except.pure,
        trArr]

theorem fitListLoop_str {σ : Type} (p : Prim σ) (tr : Option PyConfig)
    (k : String) {m : String} (hm : m ≠ "") :
    ∀ (l : List Arr) (idx : Nat) (acc : List Arr) (st : Transformations σ),
      (∀ pr ∈ l.enumFrom idx, ∃ cols,
        namesAt st.names pr.1 = Except.ok cols) →
      (∀ pr ∈ l.enumFrom idx,
        cfgIndex tr pr.1 = Except.ok (Option.some (PyConfig.str m))) →
      ∃ sc, fitListLoop p st tr k l idx acc =
        Except.ok ({st with scalers := sc},
          acc ++ (l.enumFrom idx).map (fun pr =>
            trArr p ((namesAt st.names pr.1).toOption.getD []) m pr.2))
  | [], idx, acc, st, _, _ => ⟨st.scalers, by simp [fitListLoop]⟩
  | a :: rest, idx, acc, st, hna, hcf => by
      obtain ⟨cols, hcols⟩ := hna (idx, a) (by simp [List.enumFrom])
      have hcfg := hcf (idx, a) (by simp [List.enumFrom])
      obtain ⟨sc2, hone⟩ := fitTransformOne_str p st a cols
        (k ++ "_" ++ Nat.repr idx) hm
      obtain ⟨sc, hsc⟩ := fitListLoop_str p tr k hm rest (idx + 1)
        (acc ++ [trArr p cols m a]) ({st with scalers := sc2})
        (fun pr hpr => hna pr (by simp [List.enumFrom, hpr]))
        (fun pr hpr => hcf pr (by simp [List.enumFrom, hpr]))
      refine ⟨sc, ?_⟩
      simp only [fitListLoop, Bind.bind, Except.bind, hcols, hcfg, hone]
      rw [hsc]
      simp only [List.enumFrom, List.map_cons, List.append_assoc,
        List.singleton_append, hcols]
      rfl

theorem fitDictLoop_str {σ : Type} (p : Prim σ) (tr : Option PyConfig)
    (k : String) {m : String} (hm : m ≠ "") :
    ∀ (d : List (String × Arr)) (acc : List (String × Arr))
      (st : Transformations σ),
      (∀ pr ∈ d, ∃ cols, namesKey st.names pr.1 = Except.ok cols) →
      (∀ pr ∈ d, cfgKey tr pr.1 = Except.ok (Option.some (PyConfig.str m))) →
      ∃ sc, fitDictLoop p st tr k d acc =
        Except.ok ({st with scalers := sc},
          acc ++ d.map (fun pr =>
            (pr.1, trArr p ((namesKey st.names pr.1).toOption.getD []) m pr.2)))
  | [], acc, st, _, _ => ⟨st.scalers, by simp [fitDictLoop]⟩
  | (n, a) :: rest, acc, st, hna, hcf => by
      obtain ⟨cols, hcols⟩ := hna (n, a) (by simp)
      have hcfg := hcf (n, a) (by simp)
      obtain ⟨sc2, hone⟩ := fitTransformOne_str p st a cols
        (k ++ "_" ++ n) hm
      obtain ⟨sc, hsc⟩ := fitDictLoop_str p tr k hm rest
        (acc ++ [(n, trArr p cols m a)]) ({st with scalers := sc2})
        (fun pr hpr => hna pr (by simp [hpr]))
        (fun pr hpr => hcf pr (by simp [hpr]))
      refine ⟨sc, ?_⟩
      simp only [fitDictLoop, Bind.bind, Except.bind, hcols, hcfg, hone]
      rw [hsc]
      simp only [List.map_cons, List.append_assoc, List.singleton_append,
        hcols]
      rfl

theorem fit_transform_str {σ : Type} (p : Prim σ) (st : Transformations σ)
    (data : Container) {m : String}
    (hm : m ≠ "") (hcfg : st.config = Option.some (PyConfig.str m))
    (hwf : c1Wf st.names data) :
    ∃ sc, fit_transform p st data = Except.ok
      ({ names := st.names, config := st.config, scalers := sc,
         is_numpy_ := Option.some (kindNp data),
         is_list_ := Option.some (kindList data),
         is_dict_ := Option.some (kindDict data) },
       trContainer p m st.names data) := by
  cases data with
  | other => simp only [c1Wf] at hwf
  | np a =>
      simp only [c1Wf] at hwf
      cases hn : st.names with
      | nested nl => rw [hn] at hwf; exact hwf.elim
      | dictN nd => rw [hn] at hwf; exact hwf.elim
      | other => rw [hn] at hwf; exact hwf.elim
      | flat cols =>
          rw [hn] at hwf
          obtain ⟨sc, hone⟩ := fitTransformOne_str p
            ({st with is_numpy_ := Option.some true,
                      is_list_ := Option.some false,
                      is_dict_ := Option.some false})
            a cols "5" hm
          rw [hn, hcfg] at hone
          refine ⟨sc, ?_⟩
          simp only [fit_transform, hcfg, Bind.bind, Except.bind, pure,
            Except.pure]
          simp only [_check_features, getFlag, hn, Bind.bind, Except.bind]
          simp only [_fit_transform, transformation, hcfg, getFlag,
            Bind.bind, Except.bind]
          simp only [namesAsCols, hn]
          rw [hone]
          simp [pure, Except.pure, Container.tag, trContainer, namesAsCols,
            hn, kindNp, kindList, kindDict, Except.toOption, Option.getD]
  | list l =>
      simp only [c1Wf] at hwf
      cases hn : st.names with
      | flat cols => rw [hn] at hwf; exact hwf.elim
      | dictN nd => rw [hn] at hwf; exact hwf.elim
      | other => rw [hn] at hwf; exact hwf.elim
      | nested nl =>
          rw [hn] at hwf
          obtain ⟨hlen, hpairs⟩ := hwf
          have hna : ∀ pr ∈ l.enumFrom 0, ∃ cols,
              namesAt (Names.nested nl) pr.1 = Except.ok cols := by
            intro pr hpr
            have hsp := mem_enum_spec
              (show (pr.1, pr.2) ∈ l.enum from hpr)
            have hlt : pr.1 < nl.length := hlen ▸ hsp.1
            cases hg : nl[pr.1]? with
            | none =>
                rw [List.getElem?_eq_getElem hlt] at hg
                cases hg
            | some cols => exact ⟨cols, by simp [namesAt, hg]⟩
          have hcf : ∀ pr ∈ l.enumFrom 0,
              cfgIndex (Option.some (PyConfig.list
                (l.map (fun _ => PyConfig.str m)))) pr.1 =
                Except.ok (Option.some (PyConfig.str m)) := by
            intro pr hpr
            have hsp := mem_enum_spec
              (show (pr.1, pr.2) ∈ l.enum from hpr)
            simp [cfgIndex, List.getElem?_replicate, hsp.1]
          obtain ⟨sc, hloop⟩ := fitListLoop_str p
            (Option.some (PyConfig.list (l.map (fun _ => PyConfig.str m))))
            "5" hm l 0 []
            ({st with is_numpy_ := Option.some false,
                      is_list_ := Option.some true,
                      is_dict_ := Option.some false})
            (by
              intro pr hpr
              rw [show ({st with is_numpy_ := Option.some false, is_list_ := Option.some true, is_dict_ := Option.some false} : Transformations σ).names = Names.nested nl from hn]
              exact hna pr hpr)
            (by intro pr hpr; exact hcf pr hpr)
          rw [hn, hcfg] at hloop
          refine ⟨sc, ?_⟩
          simp only [fit_transform, hcfg, Bind.bind, Except.bind, pure,
            Except.pure]
          simp only [_check_features, getFlag, hn, Bind.bind, Except.bind]
          simp only [_fit_transform, transformation, hcfg, getFlag,
            Bind.bind, Except.bind]
          rw [hloop]
          simp [pure, Except.pure, Container.tag, trContainer, hn,
            List.enum, kindNp, kindList, kindDict]
  | dict d =>
      simp only [c1Wf] at hwf
      cases hn : st.names with
      | flat cols => rw [hn] at hwf; exact hwf.elim
      | nested nl => rw [hn] at hwf; exact hwf.elim
      | other => rw [hn] at hwf; exact hwf.elim
      | dictN nd =>
          rw [hn] at hwf
          have hna : ∀ pr ∈ d, ∃ cols,
              namesKey (Names.dictN nd) pr.1 = Except.ok cols := by
            intro pr hpr
            obtain ⟨cols, hc, _, _⟩ := hwf pr hpr
            exact ⟨cols, by simp [namesKey, pyDictGet, hc]⟩
          have hcf : ∀ pr ∈ d,
              cfgKey (Option.some (PyConfig.dict
                (d.map (fun pr => (pr.1, PyConfig.str m))))) pr.1 =
                Except.ok (Option.some (PyConfig.str m)) := by
            intro pr hpr
            have hl := lookup_map_const (PyConfig.str m) d pr.1
              (List.mem_map.mpr ⟨pr, hpr, rfl⟩)
            simp [cfgKey, hl]
          obtain ⟨sc, hloop⟩ := fitDictLoop_str p
            (Option.some (PyConfig.dict
              (d.map (fun pr => (pr.1, PyConfig.str m)))))
            "5" hm d []
            ({st with is_numpy_ := Option.some false,
                      is_list_ := Option.some false,
                      is_dict_ := Option.some true})
            (by
              intro pr hpr
              rw [show ({st with is_numpy_ := Option.some false, is_list_ := Option.some false, is_dict_ := Option.some true} : Transformations σ).names = Names.dictN nd from hn]
              exact hna pr hpr)
            (by intro pr hpr; exact hcf pr hpr)
          rw [hn, hcfg] at hloop
          refine ⟨sc, ?_⟩
          simp only [fit_transform, hcfg, Bind.bind, Except.bind, pure,
            Except.pure]
          simp only [_check_features, getFlag, hn, Bind.bind, Except.bind]
          simp only [_fit_transform, transformation, hcfg, getFlag,
            Bind.bind, Except.bind]
          rw [hloop]
          simp [pure, Except.pure, Container.tag, trContainer, hn,
            kindNp, kindList, kindDict]

end Transformations

theorem conform_shape_id (rnd : Nat → Nat → ℚ) (df : DF) (n : Nat) :
    conform_shape rnd (PdVal.frame df) [n, df.cols.length] Option.none =
      Except.ok (PdVal.frame df, 0) := by
  simp [conform_shape, pdWidth, pure, Except.pure]

theorem colSliceFrom_zero (t : Table) : colSliceFrom t 0 = t := by
  unfold colSliceFrom
  have he : pySliceFrom 0 = fun (r : List ℚ) => r := by
    funext r
    simp [pySliceFrom]
  rw [he]
  exact List.map_id' t

theorem npReshape_id {c : Nat} (hc : c ≠ 0) {t : Table}
    (hrect : rectTable c t) : npReshape t [t.length, c] = Except.ok t := by
  simp only [npReshape]
  rw [if_pos (flatten_length_rect hrect)]
  rw [chunkRows_flatten_rect hc hrect]

namespace Transformations

variable {σ : Type}

theorem _inverse_transform_2d_str_rt {σ : Type} {p : Prim σ}
    (hp : PrimLawful p) (stI : Transformations σ) (t : Table)
    (cols : List String) (k m : String)
    (hcols : cols ≠ []) (hrect : rectTable cols.length t)
    (hlook : stI.scalers.lookup k = Option.some (trD p cols m t)) :
    _inverse_transform_2d p stI (tr2 p cols m t) cols k
      (Option.some (PyConfig.str m)) =
      Except.ok (stI, PdVal.arr t) := by
  have hshape : (trD p cols m t).shape = [t.length, cols.length] :=
    hp.shape_rec (DF.mk cols t) (TransArgs.method m)
  have hlen : (tr2 p cols m t).length = t.length :=
    hp.len_pres (DF.mk cols t) (TransArgs.method m)
  have hinv : p.invScaler (trD p cols m t).scaler (tr2 p cols m t) = t :=
    hp.inv_scaler (DF.mk cols t) m
  have hcsh : conform_shape p.rnd (PdVal.frame (DF.mk cols (tr2 p cols m t)))
      (trD p cols m t).shape Option.none =
      Except.ok (PdVal.frame (DF.mk cols (tr2 p cols m t)), 0) := by
    rw [hshape, show [t.length, cols.length] =
      [t.length, (DF.mk cols (tr2 p cols m t)).cols.length] from rfl]
    exact conform_shape_id p.rnd (DF.mk cols (tr2 p cols m t)) t.length
  have hresh : npReshape (colSliceFrom
      (p.invScaler (trD p cols m t).scaler
        (PdVal.frame (DF.mk cols (tr2 p cols m t))).val) 0)
      (DF.mk cols (tr2 p cols m t)).shape = Except.ok t := by
    show npReshape (colSliceFrom
      (p.invScaler (trD p cols m t).scaler (tr2 p cols m t)) 0) _ = _
    rw [hinv, colSliceFrom_zero]
    show npReshape t [(tr2 p cols m t).length, cols.length] = _
    rw [hlen]
    exact npReshape_id (fun hz => hcols (List.length_eq_zero.mp hz)) hrect
  simp only [_inverse_transform_2d, hlook, Bind.bind, Except.bind, hcsh]
  rw [hresh]
  rfl

end Transformations

theorem flatten_map_singleton {α β : Type} (f : α → β) :
    ∀ l : List α, (l.map (fun x => [f x])).flatten = l.map f
  | [] => rfl
  | x :: xs => by
      simp only [List.map_cons, List.flatten_cons, List.singleton_append,
        flatten_map_singleton f xs]

theorem writes2d_str {σ : Type} (p : Prim σ) (t : Table) (cols : List String)
    (k : String) {m : String} (hm : m ≠ "") :
    writes2d p t cols (Option.some (PyConfig.str m)) k =
      [(k, trD p cols m t)] := by
  have hb : (m == "") = false := by simpa using hm
  simp [writes2d, cfgTruthy, hb, pyDictInsert, trD]

theorem arrWrites_str_d2 {σ : Type} (p : Prim σ) (t : Table)
    (cols : List String) (k : String) {m : String} (hm : m ≠ "") :
    arrWrites p (Arr.d2 t) cols (Option.some (PyConfig.str m)) k =
      [(k, trD p cols m t)] := writes2d_str p t cols k hm

theorem arrWrites_str_d3 {σ : Type} (p : Prim σ) (slices : List Table)
    (cols : List String) (k : String) {m : String} (hm : m ≠ "") :
    arrWrites p (Arr.d3 slices) cols (Option.some (PyConfig.str m)) k =
      slices.enum.map (fun pr =>
        (k ++ "_" ++ Nat.repr pr.1, trD p cols m pr.2)) := by
  simp only [arrWrites]
  rw [show (fun pr : Nat × Table => writes2d p pr.2 cols
      (Option.some (PyConfig.str m)) (k ++ "_" ++ Nat.repr pr.1)) =
    (fun pr : Nat × Table =>
      [(k ++ "_" ++ Nat.repr pr.1, trD p cols m pr.2)]) from
    funext (fun pr => writes2d_str p pr.2 cols _ hm)]
  exact flatten_map_singleton _ slices.enum

namespace Transformations

variable {σ : Type}

theorem inv3dLoop_str_rt {σ : Type} {p : Prim σ} (hp : PrimLawful p)
    (stI : Transformations σ) (cols : List String) (k : String) {m : String}
    (hcols : cols ≠ []) :
    ∀ (slices : List Table) (ts : Nat) (acc : List Table),
      (∀ pr ∈ slices.enumFrom ts, rectTable cols.length pr.2) →
      (∀ pr ∈ slices.enumFrom ts,
        stI.scalers.lookup (k ++ "_" ++ Nat.repr pr.1) =
          Option.some (trD p cols m pr.2)) →
      inv3dLoop p stI cols (Option.some (PyConfig.str m)) k
        (slices.map (tr2 p cols m)) ts acc = Except.ok (stI, acc ++ slices)
  | [], ts, acc, _, _ => by simp [inv3dLoop]
  | s :: rest, ts, acc, hrect, hreg => by
      have h1 := _inverse_transform_2d_str_rt hp stI s cols
        (k ++ "_" ++ Nat.repr ts) m hcols
        (hrect (ts, s) (by simp [List.enumFrom]))
        (hreg (ts, s) (by simp [List.enumFrom]))
      simp only [List.map_cons, inv3dLoop, Bind.bind, Except.bind, h1,
        PdVal.val]
      rw [inv3dLoop_str_rt hp stI cols k hcols rest (ts + 1) (acc ++ [s])
        (fun pr hpr => hrect pr (by simp [List.enumFrom, hpr]))
        (fun pr hpr => hreg pr (by simp [List.enumFrom, hpr]))]
      simp

theorem invTransformOne_str_rt {σ : Type} {p : Prim σ} (hp : PrimLawful p)
    (stI : Transformations σ) (a : Arr) (cols : List String) (k : String)
    {m : String} (hm : m ≠ "") (hcols : cols ≠ [])
    (hrect : rectArr cols.length a)
    (hreg : ∀ e ∈ arrWrites p a cols (Option.some (PyConfig.str m)) k,
      stI.scalers.lookup e.1 = Option.some e.2) :
    ∃ out, invTransformOne p stI (trArr p cols m a) cols
        (Option.some (PyConfig.str m)) k = Except.ok (stI, out) ∧
      ArrOut.val out = a := by
  cases a with
  | d2 t =>
      have hlook : stI.scalers.lookup k = Option.some (trD p cols m t) := by
        have := hreg (k, trD p cols m t)
        rw [arrWrites_str_d2 p t cols k hm] at this
        exact this (by simp)
      refine ⟨ArrOut.d2a t, ?_, rfl⟩
      have h1 := _inverse_transform_2d_str_rt hp stI t cols k m hcols hrect
        hlook
      simp [trArr, invTransformOne, Bind.bind, Except.bind, h1, pure,
        Except.pure]
  | d3 slices =>
      have hloop := inv3dLoop_str_rt hp stI cols k hcols slices 0 []
        (by
          intro pr hpr
          exact hrect pr.2 (mem_enum_spec
            (show (pr.1, pr.2) ∈ slices.enum from hpr)).2)
        (by
          intro pr hpr
          have := hreg (k ++ "_" ++ Nat.repr pr.1, trD p cols m pr.2)
          rw [arrWrites_str_d3 p slices cols k hm] at this
          exact this (List.mem_map.mpr ⟨(pr.1, pr.2), hpr, rfl⟩))
      refine ⟨ArrOut.d3 slices, ?_, rfl⟩
      simp [trArr, invTransformOne, Bind.bind, Except.bind, hloop, pure,
        Except.pure]

theorem invListLoop_str_rt {σ : Type} {p : Prim σ} (hp : PrimLawful p)
    (stI : Transformations σ) {m : String} (hm : m ≠ "")
    (tr : Option PyConfig) (k : String) :
    ∀ (l : List Arr) (idx : Nat) (acc : List ArrOut),
      (∀ pr ∈ l.enumFrom idx, ∃ cols,
        namesAt stI.names pr.1 = Except.ok cols ∧ cols ≠ [] ∧
          rectArr cols.length pr.2) →
      (∀ pr ∈ l.enumFrom idx,
        cfgIndex tr pr.1 = Except.ok (Option.some (PyConfig.str m))) →
      (∀ pr ∈ l.enumFrom idx,
        ∀ e ∈ arrWrites p pr.2 ((namesAt stI.names pr.1).toOption.getD [])
          (Option.some (PyConfig.str m)) (k ++ "_" ++ Nat.repr pr.1),
        stI.scalers.lookup e.1 = Option.some e.2) →
      ∃ outs, invListLoop p stI tr k
          ((l.enumFrom idx).map (fun pr =>
            trArr p ((namesAt stI.names pr.1).toOption.getD []) m pr.2))
          idx acc = Except.ok (stI, acc ++ outs) ∧
        outs.map ArrOut.val = l
  | [], idx, acc, _, _, _ => ⟨[], by simp [List.enumFrom, invListLoop], rfl⟩
  | a :: rest, idx, acc, hna, hcf, hreg => by
      obtain ⟨cols, hcols, hcne, hrect⟩ := hna (idx, a)
        (by simp [List.enumFrom])
      have hcfg := hcf (idx, a) (by simp [List.enumFrom])
      have hgd : (namesAt stI.names idx).toOption.getD [] = cols := by
        rw [hcols]
        rfl
      obtain ⟨out, hone, hval⟩ := invTransformOne_str_rt hp stI a cols
        (k ++ "_" ++ Nat.repr idx) hm hcne hrect
        (by
          intro e he
          refine hreg (idx, a) (by simp [List.enumFrom]) e ?_
          rw [hgd]
          exact he)
      obtain ⟨outs, hloop, hvals⟩ := invListLoop_str_rt hp stI hm tr k rest
        (idx + 1) (acc ++ [out])
        (fun pr hpr => hna pr (by simp [List.enumFrom, hpr]))
        (fun pr hpr => hcf pr (by simp [List.enumFrom, hpr]))
        (fun pr hpr => hreg pr (by simp [List.enumFrom, hpr]))
      refine ⟨out :: outs, ?_, by simp [hvals, hval]⟩
      simp only [List.enumFrom, List.map_cons, invListLoop, Bind.bind,
        Except.bind, hcols, hcfg]
      rw [show ((Except.ok cols : Except PyErr (List String)).toOption.getD [])
        = cols from rfl]
      simp only [hone]
      rw [hloop]
      simp

theorem invDictLoop_str_rt {σ : Type} {p : Prim σ} (hp : PrimLawful p)
    (stI : Transformations σ) {m : String} (hm : m ≠ "")
    (tr : Option PyConfig) (k : String) :
    ∀ (d : List (String × Arr)) (acc : List (String × ArrOut)),
      (∀ pr ∈ d, ∃ cols,
        namesKey stI.names pr.1 = Except.ok cols ∧ cols ≠ [] ∧
          rectArr cols.length pr.2) →
      (∀ pr ∈ d,
        cfgKey tr pr.1 = Except.ok (Option.some (PyConfig.str m))) →
      (∀ pr ∈ d,
        ∀ e ∈ arrWrites p pr.2 ((namesKey stI.names pr.1).toOption.getD [])
          (Option.some (PyConfig.str m)) (k ++ "_" ++ pr.1),
        stI.scalers.lookup e.1 = Option.some e.2) →
      ∃ outs, invDictLoop p stI tr k
          (d.map (fun pr =>
            (pr.1, trArr p ((namesKey stI.names pr.1).toOption.getD []) m
              pr.2)))
          acc = Except.ok (stI, acc ++ outs) ∧
        outs.map (fun pr => (pr.1, ArrOut.val pr.2)) = d
  | [], acc, _, _, _ => ⟨[], by simp [invDictLoop], rfl⟩
  | (n, a) :: rest, acc, hna, hcf, hreg => by
      obtain ⟨cols, hcols, hcne, hrect⟩ := hna (n, a) (by simp)
      have hcfg := hcf (n, a) (by simp)
      have hgd : (namesKey stI.names n).toOption.getD [] = cols := by
        rw [hcols]
        rfl
      obtain ⟨out, hone, hval⟩ := invTransformOne_str_rt hp stI a cols
        (k ++ "_" ++ n) hm hcne hrect
        (by
          intro e he
          refine hreg (n, a) (by simp) e ?_
          rw [hgd]
          exact he)
      obtain ⟨outs, hloop, hvals⟩ := invDictLoop_str_rt hp stI hm tr k rest
        (acc ++ [(n, out)])
        (fun pr hpr => hna pr (by simp [hpr]))
        (fun pr hpr => hcf pr (by simp [hpr]))
        (fun pr hpr => hreg pr (by simp [hpr]))
      refine ⟨(n, out) :: outs, ?_, by simp [hvals, hval]⟩
      simp only [List.map_cons, invDictLoop, Bind.bind,
        Except.bind, hcols, hcfg]
      rw [show ((Except.ok cols : Except PyErr (List String)).toOption.getD [])
        = cols from rfl]
      simp only [hone]
      rw [hloop]
      simp

end Transformations

theorem mem_zip_of_getElem {α β : Type} {l : List α} {nl : List β} {i : Nat}
    {a : α} {c : β} (h1 : l[i]? = Option.some a)
    (h2 : nl[i]? = Option.some c) : (a, c) ∈ l.zip nl := by
  have h : (l.zip nl)[i]? = Option.some (a, c) := by
    rw [List.getElem?_zip_eq_some]
    exact ⟨h1, h2⟩
  exact List.getElem?_mem h

namespace Transformations

variable {σ : Type}

theorem inverse_transform_str_rt {σ : Type} {p : Prim σ} (hp : PrimLawful p)
    (stI : Transformations σ) (data : Container) {m : String} (hm : m ≠ "")
    (hcfg : stI.config = Option.some (PyConfig.str m))
    (hnp : stI.is_numpy_ = Option.some (kindNp data))
    (hli : stI.is_list_ = Option.some (kindList data))
    (hdi : stI.is_dict_ = Option.some (kindDict data))
    (hwf : c1Wf stI.names data)
    (hreg : ∀ e ∈ fitWrites p stI.names (Option.some (PyConfig.str m)) data,
      stI.scalers.lookup e.1 = Option.some e.2) :
    ∃ out, inverse_transform p stI (trContainer p m stI.names data) =
        Except.ok (stI, out) ∧ ContainerOut.val out = data := by
  cases data with
  | other => simp only [c1Wf] at hwf
  | np a =>
      simp only [c1Wf] at hwf
      cases hn : stI.names with
      | nested nl => rw [hn] at hwf; exact hwf.elim
      | dictN nd => rw [hn] at hwf; exact hwf.elim
      | other => rw [hn] at hwf; exact hwf.elim
      | flat cols =>
          rw [hn] at hwf
          obtain ⟨hcne, hrect⟩ := hwf
          obtain ⟨out, hone, hval⟩ := invTransformOne_str_rt hp stI a cols
            "5" hm hcne hrect
            (by
              intro e he
              refine hreg e ?_
              simp only [fitWrites, broadcastCfg, hn, namesAsCols]
              exact he)
          refine ⟨ContainerOut.np out, ?_, by simp [ContainerOut.val, hval]⟩
          simp only [inverse_transform, _inverse_transform,
            transformation_broadcastCfg, hcfg, broadcastCfg, hnp, kindNp,
            getFlag, Bind.bind, Except.bind]
          simp only [trContainer, namesAsCols, hn]
          rw [show ((Except.ok cols : Except PyErr (List String)).toOption.getD [])
            = cols from rfl]
          rw [if_pos (by trivial)]
          simp only [namesAsCols, hone]
          rfl
  | list l =>
      simp only [c1Wf] at hwf
      cases hn : stI.names with
      | flat cols => rw [hn] at hwf; exact hwf.elim
      | dictN nd => rw [hn] at hwf; exact hwf.elim
      | other => rw [hn] at hwf; exact hwf.elim
      | nested nl =>
          rw [hn] at hwf
          obtain ⟨hlen, hpairs⟩ := hwf
          have hna : ∀ pr ∈ l.enumFrom 0, ∃ cols,
              namesAt stI.names pr.1 = Except.ok cols ∧ cols ≠ [] ∧
                rectArr cols.length pr.2 := by
            intro pr hpr
            have hsp := List.mk_mem_enum_iff_get?.mp
              (show (pr.1, pr.2) ∈ l.enum from hpr)
            have hlt : pr.1 < l.length := (mem_enum_spec
              (show (pr.1, pr.2) ∈ l.enum from hpr)).1
            have hlt2 : pr.1 < nl.length := hlen ▸ hlt
            cases hg : nl[pr.1]? with
            | none =>
                rw [List.getElem?_eq_getElem hlt2] at hg
                cases hg
            | some cols =>
                have hz := hpairs (pr.2, cols)
                  (mem_zip_of_getElem (by simpa using hsp) hg)
                exact ⟨cols, by simp [namesAt, hn, hg], hz.1, hz.2⟩
          have hl2len : (l.enum.map (fun pr =>
              trArr p ((namesAt stI.names pr.1).toOption.getD []) m pr.2)).length
              = l.length := by simp
          refine ?_
          obtain ⟨outs, hloop, hvals⟩ := invListLoop_str_rt hp stI hm
            (Option.some (PyConfig.list ((l.enum.map (fun pr =>
              trArr p ((namesAt stI.names pr.1).toOption.getD []) m
                pr.2)).map (fun _ => PyConfig.str m))))
            "5" l 0 []
            hna
            (by
              intro pr hpr
              have hlt : pr.1 < l.length := (mem_enum_spec
                (show (pr.1, pr.2) ∈ l.enum from hpr)).1
              simp [cfgIndex, List.getElem?_replicate, hlt])
            (by
              intro pr hpr e he
              refine hreg e ?_
              simp only [fitWrites, broadcastCfg]
              refine List.mem_flatten.mpr ⟨_, List.mem_map.mpr
                ⟨pr, (by rw [List.enum]; exact hpr), rfl⟩, ?_⟩
              have hlt : pr.1 < l.length := (mem_enum_spec
                (show (pr.1, pr.2) ∈ l.enum from hpr)).1
              have hci : (cfgIndex (Option.some (PyConfig.list
                  (l.map (fun _ => PyConfig.str m)))) pr.1).toOption.getD
                  Option.none = Option.some (PyConfig.str m) := by
                simp [cfgIndex, List.getElem?_replicate, hlt,
                  Except.toOption, Option.getD]
              rw [hci]
              exact he)
          rw [hn] at hloop
          refine ⟨ContainerOut.list outs, ?_,
            by simp [ContainerOut.val, hvals]⟩
          simp only [inverse_transform, _inverse_transform,
            transformation_broadcastCfg, hcfg, broadcastCfg, hnp, hli,
            kindNp, kindList, getFlag, Bind.bind, Except.bind]
          rw [if_neg (by simp)]
          rw [if_pos (by trivial)]
          simp only [trContainer, List.enum] at hloop ⊢
          rw [hloop]
          simp [pure, Except.pure]
  | dict d =>
      simp only [c1Wf] at hwf
      cases hn : stI.names with
      | flat cols => rw [hn] at hwf; exact hwf.elim
      | nested nl => rw [hn] at hwf; exact hwf.elim
      | other => rw [hn] at hwf; exact hwf.elim
      | dictN nd =>
          rw [hn] at hwf
          have hna : ∀ pr ∈ d, ∃ cols,
              namesKey stI.names pr.1 = Except.ok cols ∧ cols ≠ [] ∧
                rectArr cols.length pr.2 := by
            intro pr hpr
            obtain ⟨cols, hc, hcne, hrect⟩ := hwf pr hpr
            exact ⟨cols, by simp [namesKey, hn, pyDictGet, hc], hcne, hrect⟩
          obtain ⟨outs, hloop, hvals⟩ := invDictLoop_str_rt hp stI hm
            (Option.some (PyConfig.dict ((d.map (fun pr =>
              (pr.1, trArr p ((namesKey stI.names pr.1).toOption.getD []) m
                pr.2))).map (fun pr => (pr.1, PyConfig.str m)))))
            "5" d []
            hna
            (by
              intro pr hpr
              have hl := lookup_map_const (PyConfig.str m)
                (d.map (fun pr => (pr.1, trArr p
                  ((namesKey stI.names pr.1).toOption.getD []) m pr.2)))
                pr.1
                (by
                  rw [List.map_map]
                  exact List.mem_map.mpr ⟨pr, hpr, rfl⟩)
              simp only [cfgKey]
              rw [hl])
            (by
              intro pr hpr e he
              refine hreg e ?_
              simp only [fitWrites, broadcastCfg]
              refine List.mem_flatten.mpr ⟨_, List.mem_map.mpr
                ⟨pr, hpr, rfl⟩, ?_⟩
              have hck : (cfgKey (Option.some (PyConfig.dict
                  (d.map (fun pr => (pr.1, PyConfig.str m))))) pr.1).toOption.getD
                  Option.none = Option.some (PyConfig.str m) := by
                have hl := lookup_map_const (PyConfig.str m) d pr.1
                  (List.mem_map.mpr ⟨pr, hpr, rfl⟩)
                simp [cfgKey, hl, Except.toOption, Option.getD]
              rw [hck]
              exact he)
          rw [hn] at hloop
          refine ⟨ContainerOut.dict outs, ?_, ?_⟩
          · simp only [inverse_transform, _inverse_transform,
              transformation_broadcastCfg, hcfg, broadcastCfg, hnp, hli, hdi,
              kindNp, kindList, kindDict, getFlag, Bind.bind, Except.bind]
            rw [if_neg (by simp)]
            rw [if_neg (by simp)]
            rw [if_pos (by trivial)]
            simp only [trContainer] at hloop ⊢
            rw [hloop]
            simp [pure, Except.pure]
          · simp only [ContainerOut.val]
            rw [show (fun pr : String × ArrOut => (pr.1, pr.2.val)) =
              (fun pr : String × ArrOut => (pr.1, ArrOut.val pr.2)) from rfl]
            rw [hvals]

end Transformations

/-- The shift primitive obeys the round-trip laws. -/
theorem primLawful_shiftPrim : PrimLawful shiftPrim := by
  refine ⟨fun df a => rfl, fun df a => by simp [shiftPrim], ?_⟩
  intro df m
  show (df.rows.map (fun r => r.map (fun q => q + 1))).map
    (fun r => r.map (fun q => q - 1)) = df.rows
  simp [List.map_map, Function.comp_def, add_sub_cancel_right]

/-- The recording primitive obeys the round-trip laws. -/
theorem primLawful_recallPrim : PrimLawful recallPrim := by
  refine ⟨fun df a => rfl, fun df a => by simp [recallPrim], fun df m => rfl⟩

/-- Claim C1 (amended): for a single-method spec and a lawful primitive,
starting from an empty registry, with well-formed feature names and
rectangular data, and under the key-hygiene proviso `fitHyg` (needed
because colliding composite keys corrupt the registry, `c1_counterexample`),
`inverse_transform` after `fit_transform` returns exactly the original data
for every supported container variant. -/
theorem c1_round_trip {σ : Type} {p : Prim σ} {st : Transformations σ}
    {data : Container} {m : String}
    (hp : PrimLawful p) (hempty : st.scalers = [])
    (hcfg : st.config = Option.some (PyConfig.str m)) (hm : m ≠ "")
    (hyg : fitHyg st.config data) (hwf : c1Wf st.names data) :
    ((Transformations.fit_transform p st data).bind
      (fun r => Transformations.inverse_transform p r.1 r.2)).map
        (fun r2 => ContainerOut.val r2.2) = Except.ok data := by
  obtain ⟨sc, hfit⟩ := Transformations.fit_transform_str p st data hm hcfg hwf
  have hw := Transformations.fit_transform_writes hfit
  have hnd : ((fitWrites p st.names st.config data).map Prod.fst).Nodup :=
    fitWrites_keys_nodup hyg
  have hsc : sc = fitWrites p st.names st.config data := by
    have h1 := hw.1
    rw [hempty, pyDictUpdate_fresh _ _ (fun k hk => by simp) hnd] at h1
    simpa using h1
  obtain ⟨out, hinv, hval⟩ := Transformations.inverse_transform_str_rt hp
    ({ names := st.names, config := st.config, scalers := sc,
       is_numpy_ := Option.some (kindNp data),
       is_list_ := Option.some (kindList data),
       is_dict_ := Option.some (kindDict data) } : Transformations σ)
    data hm hcfg rfl rfl rfl hwf
    (by
      intro e he
      show sc.lookup e.1 = Option.some e.2
      rw [hsc]
      refine lookup_mem_nodup hnd ?_
      rw [← hcfg] at he
      exact he)
  rw [hfit]
  show (Transformations.inverse_transform p _ _).map
    (fun r2 => ContainerOut.val r2.2) = Except.ok data
  rw [hinv]
  simp [Functor.map, Except.map, hval]

/-- Counterexample to C1 as stated: on the colliding dict (3-D source `x`,
2-D source `x_0`, identical feature names, single-method spec) the composite
keys coincide, the registry entry of `x` is silently overwritten, and the
round trip succeeds but returns `[[5]]` in place of `x`'s original data
`[[1]]` — even though the primitive is lawful. -/
theorem c1_counterexample :
    PrimLawful recallPrim ∧
    stC3.scalers = [] ∧
    stC3.config = Option.some (PyConfig.str "minmax") ∧
    ((Transformations.fit_transform recallPrim stC3 dataC3).bind
      (fun r => Transformations.inverse_transform recallPrim r.1 r.2)).map
        (fun r2 => ContainerOut.val r2.2) =
      Except.ok (Container.dict
        [("x", Arr.d3 [[[5]]]), ("x_0", Arr.d2 [[5]])]) ∧
    Container.dict [("x", Arr.d3 [[[5]]]), ("x_0", Arr.d2 [[5]])] ≠ dataC3 :=
  ⟨primLawful_recallPrim, rfl, rfl, rfl, by decide⟩

/-- Witness for C1 at a concrete numpy input and the shift primitive. -/
theorem c1_round_trip_witness :
    ((Transformations.fit_transform shiftPrim stMinmax
        (Container.np (Arr.d2 [[1, 2], [3, 4]]))).bind
      (fun r => Transformations.inverse_transform shiftPrim r.1 r.2)).map
        (fun r2 => ContainerOut.val r2.2) =
      Except.ok (Container.np (Arr.d2 [[1, 2], [3, 4]])) :=
  c1_round_trip primLawful_shiftPrim rfl rfl (by decide) trivial
    ⟨by decide, by unfold rectArr rectTable; decide⟩
